import Mathlib

set_option linter.unusedVariables false

/-!
Verification of the AST parser core of the `code-tree` repository
(`src/utils/astParser.ts`, the richer of the two parser variants, together
with the simple expression parser it shares the tokenizer with).

The TypeScript source is embedded shallowly:

* `ASTNode` mirrors the `ASTNode` interface; the `id` field stores the
  numeric value of the global `nodeIdCounter` (the source renders it as the
  string `node_${n}`, a constant prefix that does not affect uniqueness);
  the caller-owned `position` decoration is omitted (the parser only ever
  writes the constant `{x. 0, y: 0}` and never reads it).
* The global mutable `nodeIdCounter` is threaded explicitly: every
  constructor call takes the current counter and returns the bumped one,
  mirroring `generateNodeId`'s pre-increment.
* The recursive-descent parsers are written on the list of not-yet-consumed
  tokens (the source uses an index cursor into a fixed array) and are
  indexed by fuel, since the source's `parseExpressionTokens` argument loop
  can genuinely fail to make progress.  `none` marks exactly the executions
  that never terminate in the source; sufficiency of the canonical fuel is
  proved for the terminating parser below.
* JavaScript string operations (`trim`, `split`, `replace` of the first
  occurrence, `startsWith`, `includes`, the two `match` regexes) are
  re-implemented on `List Char` with JS semantics.
-/

/-- The `NodeType` union of the source (richer variant). -/
inductive NodeType : Type where
  | program
  | function
  | declarations
  | statements
  | expression
  | binary_op
  | unary_op
  | identifier
  | constant
  | keyword
  | operator
  | statement
  | declaration
  | if_statement
  | while_statement
  | for_statement
  | return_statement
  | assignment
  | call_expression
  | variable_declaration
  | function_declaration
  | parameter_list
deriving DecidableEq, Repr

/-- The `tokenType` union `'keyword' | 'operator' | 'identifier' | 'constant'`. -/
inductive TokenType : Type where
  | keyword
  | operator
  | identifier
  | constant
deriving DecidableEq, Repr

/-- The `ASTNode` interface (`id` is the numeric counter value behind the
`node_${n}` string; `position` is caller-owned decoration and omitted). -/
inductive ASTNode : Type where
  | mk (id : Nat) (type : NodeType) (value : String) (tokenType : TokenType)
      (children : List ASTNode) : ASTNode
deriving Repr

def ASTNode.id : ASTNode → Nat
  | .mk i _ _ _ _ => i

def ASTNode.type : ASTNode → NodeType
  | .mk _ t _ _ _ => t

def ASTNode.value : ASTNode → String
  | .mk _ _ v _ _ => v

def ASTNode.tokenType : ASTNode → TokenType
  | .mk _ _ _ tt _ => tt

def ASTNode.children : ASTNode → List ASTNode
  | .mk _ _ _ _ cs => cs

/-- `node.children.push` flattened: replace the child list of a node that
was created before its children (`call_expression`, the program wrappers). -/
def setChildren : ASTNode → List ASTNode → ASTNode
  | .mk i t v tt _, cs => .mk i t v tt cs

/-- Replace a node's `value` (used only to state dialect-independence). -/
def setValue : ASTNode → String → ASTNode
  | .mk i t _ tt cs, v => .mk i t v tt cs

/-- `createNode` with the global id counter threaded explicitly:
`generateNodeId` pre-increments, so the fresh node gets id `c+1` and the
counter afterwards is `c+1`. -/
def createNode (c : Nat) (t : NodeType) (v : String) (tt : TokenType)
    (cs : List ASTNode) : ASTNode × Nat :=
  (.mk (c + 1) t v tt cs, c + 1)

/-! ## JavaScript string helpers -/

/-- Characters matched by the JS `\s` class (ASCII part). -/
def isJsSpace (c : Char) : Bool :=
  c = ' ' || c = '\t' || c = '\n' || c = '\r' || c = '\x0b' || c = '\x0c'

/-- The character class `[+\-*/()^]` of `tokenizeExpression`. -/
def isOpChar (c : Char) : Bool :=
  c = '+' || c = '-' || c = '*' || c = '/' || c = '(' || c = ')' || c = '^'

def isDigitChar (c : Char) : Bool :=
  '0' ≤ c && c ≤ '9'

def isAlphaChar (c : Char) : Bool :=
  ('a' ≤ c && c ≤ 'z') || ('A' ≤ c && c ≤ 'Z')

/-- The regex `^\d+(\.\d+)?$` (numeric literal test). -/
def isNumericTok (s : String) : Bool :=
  let ds := s.data.takeWhile isDigitChar
  let rest := s.data.dropWhile isDigitChar
  !ds.isEmpty &&
    (rest.isEmpty ||
      (rest.headD ' ' = '.' && !rest.tail.isEmpty && rest.tail.all isDigitChar))

/-- The regex `^[a-zA-Z_][a-zA-Z0-9_]*$` (identifier test). -/
def isIdentTok (s : String) : Bool :=
  match s.data with
  | [] => false
  | c :: cs =>
    (isAlphaChar c || c = '_') &&
      cs.all (fun d => isAlphaChar d || isDigitChar d || d = '_')

/-- The regex `^["'].*["']$` (string-literal test of the richer parser's
`parsePrimary`; `.` does not match a newline). -/
def isStringLitTok (s : String) : Bool :=
  match s.data with
  | [] => false
  | c :: cs =>
    (c = '"' || c = '\'') &&
      match cs.getLast? with
      | none => false
      | some d =>
        (d = '"' || d = '\'') && (cs.dropLast.all fun e => !(e = '\n'))

/-- JS `String.prototype.trim`. -/
def jsTrim (s : String) : String :=
  ⟨((s.data.dropWhile isJsSpace).reverse.dropWhile isJsSpace).reverse⟩

/-- JS `split(sep)` with a single-character separator. -/
def splitCharAux (sep : Char) : List Char → List Char → List String
  | [], cur => [⟨cur⟩]
  | c :: cs, cur =>
    if c = sep then ⟨cur⟩ :: splitCharAux sep cs []
    else splitCharAux sep cs (cur ++ [c])

def splitChar (sep : Char) (s : String) : List String :=
  splitCharAux sep s.data []

/-- JS `split(/\s+/)`: split on runs of whitespace (a leading run yields a
leading empty string, as in JS). -/
def splitWSAux : List Char → List Char → List String
  | [], cur => [⟨cur⟩]
  | c :: cs, cur =>
    if isJsSpace c then
      String.mk cur :: splitWSAux (cs.dropWhile isJsSpace) []
    else splitWSAux cs (cur ++ [c])
termination_by l _ => l.length
decreasing_by
  · simp only [List.length_cons]
    refine Nat.lt_succ_of_le ?_
    induction cs with
    | nil => simp [List.dropWhile]
    | cons a as ih =>
      by_cases h : isJsSpace a <;> simp [List.dropWhile, h] <;> omega
  · simp only [List.length_cons]
    exact Nat.lt_succ_self _

def splitWS (s : String) : List String :=
  splitWSAux s.data []

/-- JS `startsWith`. -/
def jsStartsWith (s pat : String) : Bool :=
  pat.data.isPrefixOf s.data

/-- JS `endsWith`. -/
def jsEndsWith (s pat : String) : Bool :=
  pat.data.isSuffixOf s.data

/-- Substring scan backing JS `includes`. -/
def infixOfAux (pat : List Char) : List Char → Bool
  | [] => pat.isEmpty
  | c :: cs => pat.isPrefixOf (c :: cs) || infixOfAux pat cs

/-- JS `includes` (substring containment). -/
def includesStr (s pat : String) : Bool :=
  infixOfAux pat.data s.data

/-- JS `replace(pat, '')` with a string pattern: remove the first
occurrence only. -/
def removeFirstAux (pat : List Char) : List Char → List Char
  | [] => []
  | c :: cs =>
    if pat.isPrefixOf (c :: cs) then (c :: cs).drop pat.length
    else c :: removeFirstAux pat cs

def removeFirst (s pat : String) : String :=
  ⟨removeFirstAux pat.data s.data⟩

/-- ASCII `toUpperCase`. -/
def jsToUpper (s : String) : String :=
  ⟨s.data.map fun c => if 'a' ≤ c && c ≤ 'z' then Char.ofNat (c.toNat - 32) else c⟩

/-- ASCII `toLowerCase`. -/
def jsToLower (s : String) : String :=
  ⟨s.data.map fun c => if 'A' ≤ c && c ≤ 'Z' then Char.ofNat (c.toNat + 32) else c⟩

/-! The regex `/kw\s*\((.*?)\)/` used by the `if`/`while`/`for` statement
parsers: scan for the first position where `kw` is followed by optional
whitespace and `(`, then lazily capture up to the first `)` (the dot cannot
cross a newline). `?.[1] || ''` turns a failed match into `""`. -/

def capParen (l : List Char) : Option (List Char) :=
  let cap := l.takeWhile fun c => !(c = ')')
  if l.contains ')' && cap.all (fun c => !(c = '\n')) then some cap else none

def kwParenAt (kw : List Char) (l : List Char) : Option (List Char) :=
  if kw.isPrefixOf l then
    match (l.drop kw.length).dropWhile isJsSpace with
    | '(' :: rest => capParen rest
    | _ => none
  else none

def kwParenSearch (kw : List Char) : List Char → Option (List Char)
  | [] => none
  | c :: cs =>
    match kwParenAt kw (c :: cs) with
    | some r => some r
    | none => kwParenSearch kw cs

def regexKwParen (kw s : String) : String :=
  ((kwParenSearch kw.data s.data).map String.mk).getD ""

/-! ## Tokenizer (`tokenizeExpression`) -/

/-- The scanning loop of `tokenizeExpression`: accumulate a pending buffer,
flush on whitespace, flush-and-emit on one of `+ - * / ( ) ^`. -/
def tokenizeAux : List Char → List Char → List String
  | [], cur => if cur.isEmpty then [] else [⟨cur⟩]
  | c :: cs, cur =>
    if isJsSpace c then
      (if cur.isEmpty then [] else [String.mk cur]) ++ tokenizeAux cs []
    else if isOpChar c then
      (if cur.isEmpty then [] else [String.mk cur]) ++ [⟨[c]⟩] ++ tokenizeAux cs []
    else tokenizeAux cs (cur ++ [c])

def tokenizeExpression (input : String) : List String :=
  (tokenizeAux input.data []).filter fun t => t.length > 0

/-! ## The simple expression parser (`parseExpressionTokens`)

Used by the top-level `parseExpression` (and hence by `parseCode` for the
`expression` dialect).  `parsePrimary` here can return `null` *without
consuming a token*, so the argument loop of a call expression can fail to
make progress; the functions are therefore indexed by fuel, and `none`
(fuel exhaustion at every fuel) models the source's non-termination.  The
inner `Option ASTNode` is the source's nullable result. -/

mutual

def parsePrimaryT : Nat → List String → Nat → Option (Option ASTNode × List String × Nat)
  | 0, _, _ => none
  | f + 1, ts, c =>
    match ts with
    | [] => some (none, [], c)
    | t :: rest =>
      if t = "(" then
        match parseAddSubT f rest c with
        | none => none
        | some (e, ts1, c1) => some (e, ts1.tail, c1)
      else if isNumericTok t then
        let (n, c1) := createNode c .constant t .constant []
        some (some n, rest, c1)
      else if isIdentTok t then
        if rest.head? = some "(" then
          match parseArgsT f rest.tail [] c with
          | none => none
          | some (args, ts1, c1) =>
            let (n, c2) := createNode c1 .call_expression t .identifier args
            some (some n, ts1, c2)
        else
          let (n, c1) := createNode c .identifier t .identifier []
          some (some n, rest, c1)
      else some (none, t :: rest, c)

def parseArgsT : Nat → List String → List ASTNode → Nat → Option (List ASTNode × List String × Nat)
  | 0, _, _, _ => none
  | f + 1, ts, acc, c =>
    match ts with
    | [] => some (acc, [], c)
    | t :: rest =>
      if t = ")" then some (acc, rest, c)
      else
        match parseAddSubT f (t :: rest) c with
        | none => none
        | some (arg, ts1, c1) =>
          let acc1 := match arg with
            | some a => acc ++ [a]
            | none => acc
          let ts2 := if ts1.head? = some "," then ts1.tail else ts1
          parseArgsT f ts2 acc1 c1

def parseMulDivT : Nat → List String → Nat → Option (Option ASTNode × List String × Nat)
  | 0, _, _ => none
  | f + 1, ts, c =>
    match parsePrimaryT f ts c with
    | none => none
    | some (left, ts1, c1) => mulLoopT f left ts1 c1

def mulLoopT : Nat → Option ASTNode → List String → Nat → Option (Option ASTNode × List String × Nat)
  | 0, _, _, _ => none
  | f + 1, left, ts, c =>
    match ts with
    | t :: rest =>
      if t = "*" || t = "/" then
        match parsePrimaryT f rest c with
        | none => none
        | some (right, ts1, c1) =>
          match right with
          | none => mulLoopT f left ts1 c1
          | some r =>
            let cs := match left with
              | some l => [l, r]
              | none => [r]
            let (n, c2) := createNode c1 .binary_op t .operator cs
            mulLoopT f (some n) ts1 c2
      else some (left, t :: rest, c)
    | [] => some (left, [], c)

def parseAddSubT : Nat → List String → Nat → Option (Option ASTNode × List String × Nat)
  | 0, _, _ => none
  | f + 1, ts, c =>
    match parseMulDivT f ts c with
    | none => none
    | some (left, ts1, c1) => addLoopT f left ts1 c1

def addLoopT : Nat → Option ASTNode → List String → Nat → Option (Option ASTNode × List String × Nat)
  | 0, _, _, _ => none
  | f + 1, left, ts, c =>
    match ts with
    | t :: rest =>
      if t = "+" || t = "-" then
        match parseMulDivT f rest c with
        | none => none
        | some (right, ts1, c1) =>
          match right with
          | none => addLoopT f left ts1 c1
          | some r =>
            let cs := match left with
              | some l => [l, r]
              | none => [r]
            let (n, c2) := createNode c1 .binary_op t .operator cs
            addLoopT f (some n) ts1 c2
      else some (left, t :: rest, c)
    | [] => some (left, [], c)

end

/-- Canonical fuel: provably enough for every terminating execution. -/
def tokFuel (ts : List String) : Nat := 10 * ts.length + 20

/-- `parseExpressionTokens(tokens)` (entry `parseAddSub`). -/
def parseExpressionTokens (ts : List String) (c : Nat) :
    Option (Option ASTNode × List String × Nat) :=
  parseAddSubT (tokFuel ts) ts c

/-- `parseExpression` with the threaded id counter exposed (the source
resets the global counter to `0` on entry, so it takes no counter). -/
def parseExpressionC (input : String) : Option (ASTNode × Nat) :=
  match parseExpressionTokens (tokenizeExpression input) 0 with
  | none => none
  | some (some n, _, c) => some (n, c)
  | some (none, _, c) =>
    let (n, c1) := createNode c .expression input .constant []
    some (n, c1)

/-- The exported `parseExpression` entry point. -/
def parseExpression (input : String) : Option ASTNode :=
  (parseExpressionC input).map Prod.fst

/-! ## The richer expression parser (`parseExpressionRecursive`)

Used for every sub-expression of the line-oriented statement parsers.  All
its functions return a node (never `null`): `parsePrimary` has a default
branch that consumes the offending token as an identifier and yields a
placeholder empty identifier on an exhausted stream, so every level makes
progress; the canonical fuel is proved sufficient below. -/

mutual

def parseLogicalOrR : Nat → List String → Nat → Option (ASTNode × List String × Nat)
  | 0, _, _ => none
  | f + 1, ts, c =>
    match parseLogicalAndR f ts c with
    | none => none
    | some (left, ts1, c1) => orLoopR f left ts1 c1

def orLoopR : Nat → ASTNode → List String → Nat → Option (ASTNode × List String × Nat)
  | 0, _, _, _ => none
  | f + 1, left, ts, c =>
    match ts with
    | t :: rest =>
      if t = "||" then
        match parseLogicalAndR f rest c with
        | none => none
        | some (right, ts1, c1) =>
          let (n, c2) := createNode c1 .binary_op t .operator [left, right]
          orLoopR f n ts1 c2
      else some (left, t :: rest, c)
    | [] => some (left, [], c)

def parseLogicalAndR : Nat → List String → Nat → Option (ASTNode × List String × Nat)
  | 0, _, _ => none
  | f + 1, ts, c =>
    match parseEqualityR f ts c with
    | none => none
    | some (left, ts1, c1) => andLoopR f left ts1 c1

def andLoopR : Nat → ASTNode → List String → Nat → Option (ASTNode × List String × Nat)
  | 0, _, _, _ => none
  | f + 1, left, ts, c =>
    match ts with
    | t :: rest =>
      if t = "&&" then
        match parseEqualityR f rest c with
        | none => none
        | some (right, ts1, c1) =>
          let (n, c2) := createNode c1 .binary_op t .operator [left, right]
          andLoopR f n ts1 c2
      else some (left, t :: rest, c)
    | [] => some (left, [], c)

def parseEqualityR : Nat → List String → Nat → Option (ASTNode × List String × Nat)
  | 0, _, _ => none
  | f + 1, ts, c =>
    match parseComparisonR f ts c with
    | none => none
    | some (left, ts1, c1) => eqLoopR f left ts1 c1

def eqLoopR : Nat → ASTNode → List String → Nat → Option (ASTNode × List String × Nat)
  | 0, _, _, _ => none
  | f + 1, left, ts, c =>
    match ts with
    | t :: rest =>
      if t = "==" || t = "!=" then
        match parseComparisonR f rest c with
        | none => none
        | some (right, ts1, c1) =>
          let (n, c2) := createNode c1 .binary_op t .operator [left, right]
          eqLoopR f n ts1 c2
      else some (left, t :: rest, c)
    | [] => some (left, [], c)

def parseComparisonR : Nat → List String → Nat → Option (ASTNode × List String × Nat)
  | 0, _, _ => none
  | f + 1, ts, c =>
    match parseAddSubR f ts c with
    | none => none
    | some (left, ts1, c1) => compLoopR f left ts1 c1

def compLoopR : Nat → ASTNode → List String → Nat → Option (ASTNode × List String × Nat)
  | 0, _, _, _ => none
  | f + 1, left, ts, c =>
    match ts with
    | t :: rest =>
      if t = "<" || t = ">" || t = "<=" || t = ">=" then
        match parseAddSubR f rest c with
        | none => none
        | some (right, ts1, c1) =>
          let (n, c2) := createNode c1 .binary_op t .operator [left, right]
          compLoopR f n ts1 c2
      else some (left, t :: rest, c)
    | [] => some (left, [], c)

def parseAddSubR : Nat → List String → Nat → Option (ASTNode × List String × Nat)
  | 0, _, _ => none
  | f + 1, ts, c =>
    match parseMulDivR f ts c with
    | none => none
    | some (left, ts1, c1) => addLoopR f left ts1 c1

def addLoopR : Nat → ASTNode → List String → Nat → Option (ASTNode × List String × Nat)
  | 0, _, _, _ => none
  | f + 1, left, ts, c =>
    match ts with
    | t :: rest =>
      if t = "+" || t = "-" then
        match parseMulDivR f rest c with
        | none => none
        | some (right, ts1, c1) =>
          let (n, c2) := createNode c1 .binary_op t .operator [left, right]
          addLoopR f n ts1 c2
      else some (left, t :: rest, c)
    | [] => some (left, [], c)

def parseMulDivR : Nat → List String → Nat → Option (ASTNode × List String × Nat)
  | 0, _, _ => none
  | f + 1, ts, c =>
    match parseUnaryR f ts c with
    | none => none
    | some (left, ts1, c1) => mulLoopR f left ts1 c1

def mulLoopR : Nat → ASTNode → List String → Nat → Option (ASTNode × List String × Nat)
  | 0, _, _, _ => none
  | f + 1, left, ts, c =>
    match ts with
    | t :: rest =>
      if t = "*" || t = "/" || t = "%" then
        match parseUnaryR f rest c with
        | none => none
        | some (right, ts1, c1) =>
          let (n, c2) := createNode c1 .binary_op t .operator [left, right]
          mulLoopR f n ts1 c2
      else some (left, t :: rest, c)
    | [] => some (left, [], c)

def parseUnaryR : Nat → List String → Nat → Option (ASTNode × List String × Nat)
  | 0, _, _ => none
  | f + 1, ts, c =>
    match ts with
    | t :: rest =>
      if t = "-" || t = "!" || t = "++" || t = "--" then
        match parseUnaryR f rest c with
        | none => none
        | some (opnd, ts1, c1) =>
          let (n, c2) := createNode c1 .unary_op t .operator [opnd]
          some (n, ts1, c2)
      else parsePrimaryR f (t :: rest) c
    | [] => parsePrimaryR f [] c

def parsePrimaryR : Nat → List String → Nat → Option (ASTNode × List String × Nat)
  | 0, _, _ => none
  | f + 1, ts, c =>
    match ts with
    | [] =>
      let (n, c1) := createNode c .identifier "" .identifier []
      some (n, [], c1)
    | t :: rest =>
      if t = "(" then
        match parseLogicalOrR f rest c with
        | none => none
        | some (e, ts1, c1) => some (e, ts1.tail, c1)
      else if isNumericTok t then
        let (n, c1) := createNode c .constant t .constant []
        some (n, rest, c1)
      else if isStringLitTok t then
        let (n, c1) := createNode c .constant t .constant []
        some (n, rest, c1)
      else if isIdentTok t then
        if rest.head? = some "(" then
          let (callN, c1) := createNode c .call_expression t .identifier []
          match parseArgsR f rest.tail [] c1 with
          | none => none
          | some (args, ts1, c2) => some (setChildren callN args, ts1, c2)
        else
          let (n, c1) := createNode c .identifier t .identifier []
          some (n, rest, c1)
      else
        let (n, c1) := createNode c .identifier t .identifier []
        some (n, rest, c1)

def parseArgsR : Nat → List String → List ASTNode → Nat → Option (List ASTNode × List String × Nat)
  | 0, _, _, _ => none
  | f + 1, ts, acc, c =>
    match ts with
    | [] => some (acc, [], c)
    | t :: rest =>
      if t = ")" then some (acc, rest, c)
      else
        match parseLogicalOrR f (t :: rest) c with
        | none => none
        | some (arg, ts1, c1) =>
          let ts2 := if ts1.head? = some "," then ts1.tail else ts1
          parseArgsR f ts2 (acc ++ [arg]) c1

end

/-- Canonical fuel for the richer parser (proved sufficient below). -/
def richFuel (ts : List String) : Nat := 10 * ts.length + 20

/-- `parseExpressionRecursive(input)` with the id counter threaded. -/
def parseExpressionRecursive (input : String) (c : Nat) : Option (ASTNode × Nat) :=
  match parseLogicalOrR (richFuel (tokenizeExpression input))
      (tokenizeExpression input) c with
  | none => none
  | some (n, _, c1) => some (n, c1)

/-! ## Statement classifier and tree assembler -/

/-- The type-keyword set of `isVariableDeclaration`. -/
def declKeywords : List String :=
  ["int", "float", "double", "char", "void", "bool", "string"]

/-- `isVariableDeclaration` (the `language` argument is accepted and
ignored, as in the source). -/
def isVariableDeclaration (statement language : String) : Bool :=
  let firstWord := (splitWS (jsTrim statement)).headD ""
  declKeywords.contains (jsToLower firstWord)

/-- `isFunctionDeclaration`. -/
def isFunctionDeclaration (statement : String) : Bool :=
  includesStr statement "(" && includesStr statement ")" &&
    (includesStr statement "\x7b" || jsEndsWith statement ")" || jsEndsWith statement ";")

/-- `parseVariableDeclaration`. -/
def parseVariableDeclaration (statement language : String) (c : Nat) :
    Option (ASTNode × Nat) :=
  let cleanStmt := jsTrim (removeFirst statement ";")
  let parts := splitChar '=' cleanStmt
  let leftPart := jsTrim (parts.headD "")
  let rightPart := ((parts.get? 1).map jsTrim).getD ""
  let leftTokens := splitWS leftPart
  let type := leftTokens.headD ""
  let varName := leftTokens.getLastD ""
  let (declNode, c1) :=
    createNode c .variable_declaration (type ++ " " ++ varName) .keyword []
  let (kwNode, c2) := createNode c1 .keyword type .keyword []
  let (idNode, c3) := createNode c2 .identifier varName .identifier []
  if rightPart = "" then
    some (setChildren declNode [kwNode, idNode], c3)
  else
    let (initNode, c4) := createNode c3 .assignment "=" .operator []
    let (tgtNode, c5) := createNode c4 .identifier varName .identifier []
    match parseExpressionRecursive rightPart c5 with
    | none => none
    | some (valueNode, c6) =>
      some (setChildren declNode
        [kwNode, idNode, setChildren initNode [tgtNode, valueNode]], c6)

/-- The parameter loop of `parseFunctionDeclaration`: parameters with fewer
than two whitespace-delimited tokens are silently dropped. -/
def buildParams : List String → Nat → List ASTNode × Nat
  | [], c => ([], c)
  | p :: ps, c =>
    let toks := splitWS p
    if toks.length ≥ 2 then
      let paramType := toks.headD ""
      let paramName := (toks.get? 1).getD ""
      let (paramNode, c1) :=
        createNode c .declaration (paramType ++ " " ++ paramName) .identifier []
      let (kwNode, c2) := createNode c1 .keyword paramType .keyword []
      let (idNode, c3) := createNode c2 .identifier paramName .identifier []
      let (restNodes, c4) := buildParams ps c3
      (setChildren paramNode [kwNode, idNode] :: restNodes, c4)
    else buildParams ps c

/-- `parseFunctionDeclaration` (never calls the expression parser, hence
total; note the `parameter_list` node is created before the parameters are
built but dropped when none of them survives, leaving a gap in the ids). -/
def parseFunctionDeclaration (statement language : String) (c : Nat) :
    ASTNode × Nat :=
  let parts := splitChar '(' statement
  let leftPart := jsTrim (parts.headD "")
  let paramsPart := ((parts.get? 1).map fun p => (splitChar ')' p).headD "").getD ""
  let leftTokens := splitWS leftPart
  let returnType := if leftTokens.length > 1 then leftTokens.headD "" else "void"
  let functionName := leftTokens.getLastD ""
  let (functionNode, c1) :=
    createNode c .function_declaration ("Function: " ++ functionName) .keyword []
  let (retChildren, c2) :=
    if returnType ≠ "void" then
      let (kwNode, c2) := createNode c1 .keyword returnType .keyword []
      ([kwNode], c2)
    else ([], c1)
  let (idNode, c3) := createNode c2 .identifier functionName .identifier []
  if jsTrim paramsPart ≠ "" then
    let (paramListNode, c4) := createNode c3 .parameter_list "Parameters" .keyword []
    let paramList := (splitChar ',' paramsPart).map jsTrim
    let (paramNodes, c5) := buildParams paramList c4
    let children := retChildren ++ [idNode] ++
      (if paramNodes.length > 0 then [setChildren paramListNode paramNodes] else [])
    (setChildren functionNode children, c5)
  else
    (setChildren functionNode (retChildren ++ [idNode]), c3)

/-- `parseWhileStatement`. -/
def parseWhileStatement (statement : String) (c : Nat) : Option (ASTNode × Nat) :=
  let condition := regexKwParen "while" statement
  let (whileNode, c1) := createNode c .while_statement "while" .keyword []
  if condition = "" then some (whileNode, c1)
  else
    match parseExpressionRecursive condition c1 with
    | none => none
    | some (condNode, c2) => some (setChildren whileNode [condNode], c2)

/-- One labeled part (`Init`/`Condition`/`Update`) of `parseForStatement`:
an empty part produces no container. -/
def forPart (label : String) (src : String) (c : Nat) :
    Option (Option ASTNode × Nat) :=
  if src = "" then some (none, c)
  else
    let (contNode, c1) := createNode c .statement label .keyword []
    match parseExpressionRecursive src c1 with
    | none => none
    | some (e, c2) => some (some (setChildren contNode [e]), c2)

/-- `parseForStatement`. -/
def parseForStatement (statement : String) (c : Nat) : Option (ASTNode × Nat) :=
  let forContent := regexKwParen "for" statement
  let (forNode, c1) := createNode c .for_statement "for" .keyword []
  if forContent = "" then some (forNode, c1)
  else
    let parts := (splitChar ';' forContent).map jsTrim
    if parts.length ≥ 3 then
      match forPart "Init" (parts.headD "") c1 with
      | none => none
      | some (n0, c2) =>
        match forPart "Condition" ((parts.get? 1).getD "") c2 with
        | none => none
        | some (n1, c3) =>
          match forPart "Update" ((parts.get? 2).getD "") c3 with
          | none => none
          | some (n2, c4) =>
            some (setChildren forNode (n0.toList ++ n1.toList ++ n2.toList), c4)
    else some (forNode, c1)

/-- `parseReturnStatement`. -/
def parseReturnStatement (statement : String) (c : Nat) : Option (ASTNode × Nat) :=
  let returnValue := removeFirst (jsTrim (removeFirst statement "return")) ";"
  let (returnNode, c1) := createNode c .return_statement "return" .keyword []
  if returnValue = "" then some (returnNode, c1)
  else
    match parseExpressionRecursive returnValue c1 with
    | none => none
    | some (v, c2) => some (setChildren returnNode [v], c2)

/-- `parseIfStatement`. -/
def parseIfStatement (statement : String) (c : Nat) : Option (ASTNode × Nat) :=
  let condition := regexKwParen "if" statement
  let (ifNode, c1) := createNode c .if_statement "if" .keyword []
  if condition = "" then some (ifNode, c1)
  else
    match parseExpressionRecursive condition c1 with
    | none => none
    | some (condNode, c2) => some (setChildren ifNode [condNode], c2)

/-- `parseAssignment`. -/
def parseAssignment (statement : String) (c : Nat) : Option (ASTNode × Nat) :=
  let parts := splitChar '=' statement
  let varTarget := jsTrim (parts.headD "")
  let value := ((parts.get? 1).map fun v => removeFirst (jsTrim v) ";").getD ""
  let (assignNode, c1) := createNode c .assignment "=" .operator []
  let (idNode, c2) := createNode c1 .identifier varTarget .identifier []
  if value = "" then some (setChildren assignNode [idNode], c2)
  else
    match parseExpressionRecursive value c2 with
    | none => none
    | some (v, c3) => some (setChildren assignNode [idNode, v], c3)

/-- `parseExpressionStatement`. -/
def parseExpressionStatement (statement : String) (c : Nat) : Option (ASTNode × Nat) :=
  parseExpressionRecursive (jsTrim (removeFirst statement ";")) c

/-- `parseStatement`: the ordered heuristic decision policy. -/
def parseStatement (statement language : String) (c : Nat) : Option (ASTNode × Nat) :=
  if isVariableDeclaration statement language then
    parseVariableDeclaration statement language c
  else if isFunctionDeclaration statement then
    some (parseFunctionDeclaration statement language c)
  else if jsStartsWith statement "if" then
    parseIfStatement statement c
  else if jsStartsWith statement "while" then
    parseWhileStatement statement c
  else if jsStartsWith statement "for" then
    parseForStatement statement c
  else if jsStartsWith statement "return" then
    parseReturnStatement statement c
  else if includesStr statement "=" && !includesStr statement "==" &&
      !isVariableDeclaration statement language then
    parseAssignment statement c
  else parseExpressionStatement statement c

/-- `input.split('\n').filter(line => line.trim())`. -/
def codeLines (input : String) : List String :=
  (splitChar '\n' input).filter fun line => !(jsTrim line = "")

/-- The in-loop skip of blank and comment lines. -/
def skipLine (t : String) : Bool :=
  t = "" || jsStartsWith t "//" || jsStartsWith t "#"

/-- The categorizing loop of `parseCode`: three buckets in line order. -/
def parseLinesAux : List String → String → List ASTNode → List ASTNode →
    List ASTNode → Nat → Option (List ASTNode × List ASTNode × List ASTNode × Nat)
  | [], _, fs, ds, ss, c => some (fs, ds, ss, c)
  | line :: rest, language, fs, ds, ss, c =>
    let t := jsTrim line
    if skipLine t then parseLinesAux rest language fs ds ss c
    else
      match parseStatement t language c with
      | none => none
      | some (n, c1) =>
        if n.type = .function_declaration then
          parseLinesAux rest language (fs ++ [n]) ds ss c1
        else if n.type = .variable_declaration then
          parseLinesAux rest language fs (ds ++ [n]) ss c1
        else parseLinesAux rest language fs ds (ss ++ [n]) c1

/-- The classified statements in original line order (used to state the
bucket structure of the program node's children). -/
def parsedLineNodes : List String → String → Nat → Option (List ASTNode × Nat)
  | [], _, c => some ([], c)
  | line :: rest, language, c =>
    let t := jsTrim line
    if skipLine t then parsedLineNodes rest language c
    else
      match parseStatement t language c with
      | none => none
      | some (n, c1) =>
        match parsedLineNodes rest language c1 with
        | none => none
        | some (l, c2) => some (n :: l, c2)

/-- The exported `parseCode(input, language)` entry point. -/
def parseCode (input language : String) : Option ASTNode :=
  if language = "expression" then
    match parseExpressionC input with
    | none => none
    | some (exprNode, c1) =>
      let (programNode, c2) := createNode c1 .program "Program" .keyword []
      let (expressionsNode, _c3) :=
        createNode c2 .statements "Expressions" .keyword [exprNode]
      some (setChildren programNode [expressionsNode])
  else
    let (programNode, c1) :=
      createNode 0 .program (jsToUpper language ++ " Program") .keyword []
    match parseLinesAux (codeLines input) language [] [] [] c1 with
    | none => none
    | some (fs, ds, ss, c2) =>
      let (dsPart, c3) :=
        if ds.length > 0 then
          let (declNode, c3) := createNode c2 .declarations "Declarations" .keyword ds
          ([declNode], c3)
        else ([], c2)
      let (ssPart, _c4) :=
        if ss.length > 0 then
          let (stmtNode, c4) := createNode c3 .statements "Statements" .keyword ss
          ([stmtNode], c4)
        else ([], c3)
      some (setChildren programNode (fs ++ dsPart ++ ssPart))

/-! ## Observations used to state the claims -/

mutual

/-- Preorder list of all ids in a tree. -/
def collectIds : ASTNode → List Nat
  | .mk i _ _ _ cs => i :: collectIdsF cs

/-- Preorder list of all ids in a forest. -/
def collectIdsF : List ASTNode → List Nat
  | [] => []
  | n :: ns => collectIds n ++ collectIdsF ns

end

mutual

/-- Every `binary_op` node has exactly 2 children and every `unary_op` node
exactly 1, recursively. -/
def arityStrict : ASTNode → Bool
  | .mk _ t _ _ cs =>
    (if t = .binary_op then cs.length == 2
     else if t = .unary_op then cs.length == 1
     else true) && arityStrictF cs

def arityStrictF : List ASTNode → Bool
  | [] => true
  | n :: ns => arityStrict n && arityStrictF ns

end

mutual

/-- Every `binary_op` node has 1 or 2 children and every `unary_op` node
exactly 1, recursively (the simple parser can drop a missing left operand). -/
def arityWeak : ASTNode → Bool
  | .mk _ t _ _ cs =>
    (if t = .binary_op then cs.length == 1 || cs.length == 2
     else if t = .unary_op then cs.length == 1
     else true) && arityWeakF cs

def arityWeakF : List ASTNode → Bool
  | [] => true
  | n :: ns => arityWeak n && arityWeakF ns

end

/-- The ids of a forest produced between counter values `c` and `c'` are
exactly the interval `c+1, …, c'` (up to order): holds for both expression
parsers, where every created node is incorporated into the result. -/
def ExprIds (c c' : Nat) (l : List Nat) : Prop :=
  l.Perm (List.range' (c + 1) (c' - c))

/-- Weaker invariant for the statement level (where `parseFunctionDeclaration`
can create and drop a `parameter_list` node): the ids lie in `(c, c']` and
are pairwise distinct. -/
def IdsIn (c c' : Nat) (l : List Nat) : Prop :=
  l.Nodup ∧ ∀ i ∈ l, c < i ∧ i ≤ c'

/-- Ids of a nullable node. -/
def optIds : Option ASTNode → List Nat
  | none => []
  | some n => collectIds n

/-- Weak arity of a nullable node. -/
def arityWeakO : Option ASTNode → Bool
  | none => true
  | some n => arityWeak n

/-- Bucket predicates of `parseCode`'s categorizing loop. -/
def isFuncNode (n : ASTNode) : Bool := n.type == .function_declaration

def isDeclNode (n : ASTNode) : Bool := n.type == .variable_declaration

def isOtherNode (n : ASTNode) : Bool := !isFuncNode n && !isDeclNode n

/-! Invariants of the richer expression parser, stated per fuel value.
Each successful parse consumes a prefix of the tokens (strictly when the
stream was non-empty), advances the counter, produces exactly the ids
`(c, c']`, and builds strict-arity operator nodes. -/

def LevelInv (p : Nat → List String → Nat → Option (ASTNode × List String × Nat))
    (f : Nat) : Prop :=
  ∀ ts c n ts' c', p f ts c = some (n, ts', c') →
    ts'.length ≤ ts.length ∧ (ts ≠ [] → ts'.length < ts.length) ∧ c ≤ c' ∧
      ExprIds c c' (collectIds n) ∧ arityStrict n = true

def LoopInv (p : Nat → ASTNode → List String → Nat → Option (ASTNode × List String × Nat))
    (f : Nat) : Prop :=
  ∀ left ts c a n ts' c', a ≤ c → ExprIds a c (collectIds left) →
    arityStrict left = true → p f left ts c = some (n, ts', c') →
    ts'.length ≤ ts.length ∧ c ≤ c' ∧ ExprIds a c' (collectIds n) ∧
      arityStrict n = true

def ArgsInvR (f : Nat) : Prop :=
  ∀ ts acc c a args ts' c', a ≤ c → ExprIds a c (collectIdsF acc) →
    arityStrictF acc = true → parseArgsR f ts acc c = some (args, ts', c') →
    ts'.length ≤ ts.length ∧ c ≤ c' ∧ ExprIds a c' (collectIdsF args) ∧
      arityStrictF args = true

def RichInv (f : Nat) : Prop :=
  LevelInv parsePrimaryR f ∧ LevelInv parseUnaryR f ∧
    LevelInv parseMulDivR f ∧ LevelInv parseAddSubR f ∧
    LevelInv parseComparisonR f ∧ LevelInv parseEqualityR f ∧
    LevelInv parseLogicalAndR f ∧ LevelInv parseLogicalOrR f ∧
    LoopInv mulLoopR f ∧ LoopInv addLoopR f ∧ LoopInv compLoopR f ∧
    LoopInv eqLoopR f ∧ LoopInv andLoopR f ∧ LoopInv orLoopR f ∧ ArgsInvR f

/-! Totality of the richer parser: enough fuel makes every function
succeed.  The constants mirror the depth of the precedence chain. -/

def LevelTot (p : Nat → List String → Nat → Option (ASTNode × List String × Nat))
    (k f : Nat) : Prop :=
  ∀ ts c, 10 * ts.length + k ≤ f → (p f ts c).isSome

def LoopTot (p : Nat → ASTNode → List String → Nat → Option (ASTNode × List String × Nat))
    (k f : Nat) : Prop :=
  ∀ left ts c, 10 * ts.length + k ≤ f → (p f left ts c).isSome

def ArgsTotR (f : Nat) : Prop :=
  ∀ ts acc c, 10 * ts.length + 9 ≤ f → (parseArgsR f ts acc c).isSome

def RichTot (f : Nat) : Prop :=
  LevelTot parsePrimaryR 1 f ∧ LevelTot parseUnaryR 2 f ∧
    LevelTot parseMulDivR 3 f ∧ LevelTot parseAddSubR 4 f ∧
    LevelTot parseComparisonR 5 f ∧ LevelTot parseEqualityR 6 f ∧
    LevelTot parseLogicalAndR 7 f ∧ LevelTot parseLogicalOrR 8 f ∧
    LoopTot mulLoopR 2 f ∧ LoopTot addLoopR 3 f ∧ LoopTot compLoopR 4 f ∧
    LoopTot eqLoopR 5 f ∧ LoopTot andLoopR 6 f ∧ LoopTot orLoopR 7 f ∧
    ArgsTotR f

/-! Invariants of the simple expression parser (conditional on success:
this parser can genuinely diverge, so no totality is claimed). -/

def TLevelInv (p : Nat → List String → Nat → Option (Option ASTNode × List String × Nat))
    (f : Nat) : Prop :=
  ∀ ts c r ts' c', p f ts c = some (r, ts', c') →
    ts'.length ≤ ts.length ∧ c ≤ c' ∧ ExprIds c c' (optIds r) ∧
      arityWeakO r = true

def TLoopInv
    (p : Nat → Option ASTNode → List String → Nat → Option (Option ASTNode × List String × Nat))
    (f : Nat) : Prop :=
  ∀ left ts c a r ts' c', a ≤ c → ExprIds a c (optIds left) →
    arityWeakO left = true → p f left ts c = some (r, ts', c') →
    ts'.length ≤ ts.length ∧ c ≤ c' ∧ ExprIds a c' (optIds r) ∧
      arityWeakO r = true

def ArgsInvT (f : Nat) : Prop :=
  ∀ ts acc c a args ts' c', a ≤ c → ExprIds a c (collectIdsF acc) →
    arityWeakF acc = true → parseArgsT f ts acc c = some (args, ts', c') →
    ts'.length ≤ ts.length ∧ c ≤ c' ∧ ExprIds a c' (collectIdsF args) ∧
      arityWeakF args = true

def TokInv (f : Nat) : Prop :=
  TLevelInv parsePrimaryT f ∧ TLevelInv parseMulDivT f ∧
    TLevelInv parseAddSubT f ∧ TLoopInv mulLoopT f ∧ TLoopInv addLoopT f ∧
    ArgsInvT f

/-! ## Basic lemmas about the observations -/

theorem collectIds_mk (i t v tt cs) :
    collectIds (.mk i t v tt cs) = i :: collectIdsF cs := by
  rw [collectIds]

theorem collectIdsF_nil : collectIdsF [] = [] := by
  rw [collectIdsF]

theorem collectIdsF_cons (n ns) :
    collectIdsF (n :: ns) = collectIds n ++ collectIdsF ns := by
  rw [collectIdsF]

theorem collectIdsF_append (l1 l2 : List ASTNode) :
    collectIdsF (l1 ++ l2) = collectIdsF l1 ++ collectIdsF l2 := by
  induction l1 with
  | nil => simp [collectIdsF_nil]
  | cons n ns ih => simp [collectIdsF_cons, ih]

theorem collectIdsF_eq_flatMap (l : List ASTNode) :
    collectIdsF l = l.flatMap collectIds := by
  induction l with
  | nil => simp [collectIdsF_nil]
  | cons n ns ih => simp [collectIdsF_cons, ih, List.flatMap_cons]

theorem arityStrict_mk (i t v tt cs) :
    arityStrict (.mk i t v tt cs) =
      ((if t = .binary_op then cs.length == 2
        else if t = .unary_op then cs.length == 1
        else true) && arityStrictF cs) := by
  rw [arityStrict]

theorem arityStrictF_nil : arityStrictF [] = true := by
  rw [arityStrictF]

theorem arityStrictF_cons (n ns) :
    arityStrictF (n :: ns) = (arityStrict n && arityStrictF ns) := by
  rw [arityStrictF]

theorem arityStrictF_append (l1 l2 : List ASTNode) :
    arityStrictF (l1 ++ l2) = (arityStrictF l1 && arityStrictF l2) := by
  induction l1 with
  | nil => simp [arityStrictF_nil]
  | cons n ns ih => simp [arityStrictF_cons, ih, Bool.and_assoc]

theorem arityWeak_mk (i t v tt cs) :
    arityWeak (.mk i t v tt cs) =
      ((if t = .binary_op then cs.length == 1 || cs.length == 2
        else if t = .unary_op then cs.length == 1
        else true) && arityWeakF cs) := by
  rw [arityWeak]

theorem arityWeakF_nil : arityWeakF [] = true := by
  rw [arityWeakF]

theorem arityWeakF_cons (n ns) :
    arityWeakF (n :: ns) = (arityWeak n && arityWeakF ns) := by
  rw [arityWeakF]

theorem arityWeakF_append (l1 l2 : List ASTNode) :
    arityWeakF (l1 ++ l2) = (arityWeakF l1 && arityWeakF l2) := by
  induction l1 with
  | nil => simp [arityWeakF_nil]
  | cons n ns ih => simp [arityWeakF_cons, ih, Bool.and_assoc]

mutual

theorem arityWeak_of_strict : ∀ n, arityStrict n = true → arityWeak n = true
  | .mk i t v tt cs, h => by
    rw [arityStrict_mk] at h
    rw [arityWeak_mk]
    obtain ⟨ha, hb⟩ := Bool.and_eq_true_iff.mp h
    refine Bool.and_eq_true_iff.mpr ⟨?_, arityWeakF_of_strictF cs hb⟩
    split at ha <;> split <;> simp_all

theorem arityWeakF_of_strictF : ∀ l, arityStrictF l = true → arityWeakF l = true
  | [], _ => by rw [arityWeakF]
  | n :: ns, h => by
    rw [arityStrictF_cons] at h
    rw [arityWeakF_cons]
    obtain ⟨h1, h2⟩ := Bool.and_eq_true_iff.mp h
    exact Bool.and_eq_true_iff.mpr
      ⟨arityWeak_of_strict n h1, arityWeakF_of_strictF ns h2⟩

end

/-! ## Interval lemmas for the id invariants -/

theorem exprIds_nil (c : Nat) : ExprIds c c [] := by
  simp [ExprIds]

theorem exprIds_single (c : Nat) : ExprIds c (c + 1) [c + 1] := by
  simp [ExprIds]

theorem ExprIds.append {a b c : Nat} {l1 l2 : List Nat}
    (h1 : ExprIds a b l1) (h2 : ExprIds b c l2) (hab : a ≤ b) (hbc : b ≤ c) :
    ExprIds a c (l1 ++ l2) := by
  have happ := List.range'_append_1 (a + 1) (b - a) (c - b)
  have e1 : a + 1 + (b - a) = b + 1 := by omega
  have e2 : c - b + (b - a) = c - a := by omega
  rw [e1, e2] at happ
  unfold ExprIds at h1 h2 ⊢
  rw [← happ]
  exact h1.append h2

theorem ExprIds.snoc {a b : Nat} {l : List Nat} (h : ExprIds a b l)
    (hab : a ≤ b) : ExprIds a (b + 1) (l ++ [b + 1]) := by
  have := ExprIds.append h (exprIds_single b) hab (Nat.le_succ b)
  simpa using this

theorem ExprIds.consAfter {a b : Nat} {l : List Nat} (h : ExprIds a b l)
    (hab : a ≤ b) : ExprIds a (b + 1) ((b + 1) :: l) := by
  unfold ExprIds at *
  exact (List.perm_append_singleton (b + 1) l).symm.trans (ExprIds.snoc h hab)

theorem ExprIds.consHead {a b : Nat} {l : List Nat} (h : ExprIds (a + 1) b l)
    (hb : a + 1 ≤ b) : ExprIds a b ((a + 1) :: l) := by
  unfold ExprIds at *
  have e : b - a = (b - (a + 1)) + 1 := by omega
  rw [e, List.range'_succ]
  simpa using h.cons (a + 1)

theorem ExprIds.nil_eq {a c : Nat} (h : ExprIds a c []) (hac : a ≤ c) :
    c = a := by
  unfold ExprIds at h
  have := h.length_eq
  simp at this
  omega

/-! `IdsIn` (distinct ids within a half-open interval) -/

theorem idsIn_nil (a b : Nat) : IdsIn a b [] := by
  simp [IdsIn]

theorem IdsIn.perm {a b : Nat} {l1 l2 : List Nat} (hp : l1.Perm l2)
    (h : IdsIn a b l1) : IdsIn a b l2 := by
  obtain ⟨hn, hb⟩ := h
  exact ⟨hp.nodup_iff.mp hn, fun i hi => hb i (hp.mem_iff.mpr hi)⟩

theorem IdsIn.mono {a b a' b' : Nat} {l : List Nat} (h : IdsIn a b l)
    (h1 : a' ≤ a) (h2 : b ≤ b') : IdsIn a' b' l := by
  obtain ⟨hn, hbd⟩ := h
  exact ⟨hn, fun i hi => ⟨lt_of_le_of_lt h1 (hbd i hi).1,
    le_trans (hbd i hi).2 h2⟩⟩

theorem IdsIn.appendI {a b c : Nat} {l1 l2 : List Nat}
    (h1 : IdsIn a b l1) (h2 : IdsIn b c l2) (hab : a ≤ b) (hbc : b ≤ c) :
    IdsIn a c (l1 ++ l2) := by
  obtain ⟨hn1, hb1⟩ := h1
  obtain ⟨hn2, hb2⟩ := h2
  refine ⟨hn1.append hn2 ?_, ?_⟩
  · intro i hi1 hi2
    exact absurd (hb2 i hi2).1 (not_lt.mpr (hb1 i hi1).2)
  · intro i hi
    rcases List.mem_append.mp hi with h | h
    · exact ⟨(hb1 i h).1, le_trans (hb1 i h).2 hbc⟩
    · exact ⟨lt_of_le_of_lt hab (hb2 i h).1, (hb2 i h).2⟩

theorem IdsIn.consHeadI {a b : Nat} {l : List Nat} (h : IdsIn (a + 1) b l)
    (hb : a + 1 ≤ b) : IdsIn a b ((a + 1) :: l) := by
  obtain ⟨hn, hbd⟩ := h
  refine ⟨List.nodup_cons.mpr ⟨fun hmem => ?_, hn⟩, ?_⟩
  · exact absurd (hbd _ hmem).1 (lt_irrefl _)
  · intro i hi
    rcases List.mem_cons.mp hi with rfl | hi
    · omega
    · exact ⟨Nat.lt_trans (Nat.lt_succ_self a) (hbd i hi).1, (hbd i hi).2⟩

theorem idsIn_single (a b : Nat) (h : a + 1 ≤ b) : IdsIn a b [a + 1] :=
  IdsIn.consHeadI (idsIn_nil _ _) h

theorem ExprIds.toIdsIn {a b : Nat} {l : List Nat} (h : ExprIds a b l)
    (hab : a ≤ b) : IdsIn a b l := by
  unfold ExprIds at h
  refine ⟨h.nodup_iff.mpr (List.nodup_range' _ _), ?_⟩
  intro i hi
  have := h.mem_iff.mp hi
  rw [List.mem_range'] at this
  obtain ⟨j, hj, rfl⟩ := this
  omega

/-! ## The invariant of the richer expression parser -/

theorem richInv : ∀ f, RichInv f := by
  intro f
  induction f with
  | zero =>
    refine ⟨?_, ?_, ?_, ?_, ?_, ?_, ?_, ?_, ?_, ?_, ?_, ?_, ?_, ?_, ?_⟩
    · intro ts c n ts' c' h
      rw [parsePrimaryR.eq_def] at h
      simp at h
    · intro ts c n ts' c' h
      rw [parseUnaryR.eq_def] at h
      simp at h
    · intro ts c n ts' c' h
      rw [parseMulDivR.eq_def] at h
      simp at h
    · intro ts c n ts' c' h
      rw [parseAddSubR.eq_def] at h
      simp at h
    · intro ts c n ts' c' h
      rw [parseComparisonR.eq_def] at h
      simp at h
    · intro ts c n ts' c' h
      rw [parseEqualityR.eq_def] at h
      simp at h
    · intro ts c n ts' c' h
      rw [parseLogicalAndR.eq_def] at h
      simp at h
    · intro ts c n ts' c' h
      rw [parseLogicalOrR.eq_def] at h
      simp at h
    · intro left ts c a n ts' c' ha hids har h
      rw [mulLoopR.eq_def] at h
      simp at h
    · intro left ts c a n ts' c' ha hids har h
      rw [addLoopR.eq_def] at h
      simp at h
    · intro left ts c a n ts' c' ha hids har h
      rw [compLoopR.eq_def] at h
      simp at h
    · intro left ts c a n ts' c' ha hids har h
      rw [eqLoopR.eq_def] at h
      simp at h
    · intro left ts c a n ts' c' ha hids har h
      rw [andLoopR.eq_def] at h
      simp at h
    · intro left ts c a n ts' c' ha hids har h
      rw [orLoopR.eq_def] at h
      simp at h
    · intro ts acc c a args ts' c' ha hids harr h
      rw [parseArgsR.eq_def] at h
      simp at h
  | succ f ih =>
    obtain ⟨ihPrim, ihUn, ihMul, ihAdd, ihComp, ihEq, ihAnd, ihOr,
      ihMulL, ihAddL, ihCompL, ihEqL, ihAndL, ihOrL, ihArgs⟩ := ih
    refine ⟨?_, ?_, ?_, ?_, ?_, ?_, ?_, ?_, ?_, ?_, ?_, ?_, ?_, ?_, ?_⟩
    · -- LevelInv parsePrimaryR
      intro ts c n ts' c' h
      rw [parsePrimaryR.eq_def] at h
      simp only [createNode] at h
      split at h
      case h_1 =>
        simp only [Option.some.injEq, Prod.mk.injEq] at h
        obtain ⟨rfl, rfl, rfl⟩ := h
        refine ⟨le_refl _, fun hne => absurd rfl hne, Nat.le_succ _, ?_, ?_⟩
        · rw [collectIds_mk, collectIdsF_nil]
          exact exprIds_single c
        · rw [arityStrict_mk, arityStrictF_nil]
          simp
      case h_2 t rest =>
        split at h
        case isTrue hpar =>
          cases hlo : parseLogicalOrR f rest c with
          | none => rw [hlo] at h; simp at h
          | some r =>
            obtain ⟨e, ts1, c1⟩ := r
            rw [hlo] at h
            simp only [Option.some.injEq, Prod.mk.injEq] at h
            obtain ⟨rfl, rfl, rfl⟩ := h
            obtain ⟨hle1, hlt1, hc1, hids1, har1⟩ := ihOr rest c _ ts1 c1 hlo
            have htl : ts1.tail.length ≤ ts1.length := by
              rw [List.length_tail]; omega
            refine ⟨?_, ?_, hc1, hids1, har1⟩
            · calc ts1.tail.length ≤ ts1.length := htl
                _ ≤ rest.length := hle1
                _ ≤ (t :: rest).length := by simp only [List.length_cons]; omega
            · intro hne
              calc ts1.tail.length ≤ ts1.length := htl
                _ ≤ rest.length := hle1
                _ < (t :: rest).length := by simp only [List.length_cons]; omega
        case isFalse hpar =>
          split at h
          case isTrue hnum =>
            simp only [Option.some.injEq, Prod.mk.injEq] at h
            obtain ⟨rfl, rfl, rfl⟩ := h
            refine ⟨by simp only [List.length_cons]; omega,
              fun hne => by simp only [List.length_cons]; omega, Nat.le_succ _, ?_, ?_⟩
            · rw [collectIds_mk, collectIdsF_nil]
              exact exprIds_single c
            · rw [arityStrict_mk, arityStrictF_nil]
              simp
          case isFalse hnum =>
            split at h
            case isTrue hstr =>
              simp only [Option.some.injEq, Prod.mk.injEq] at h
              obtain ⟨rfl, rfl, rfl⟩ := h
              refine ⟨by simp only [List.length_cons]; omega,
                fun hne => by simp only [List.length_cons]; omega, Nat.le_succ _, ?_, ?_⟩
              · rw [collectIds_mk, collectIdsF_nil]
                exact exprIds_single c
              · rw [arityStrict_mk, arityStrictF_nil]
                simp
            case isFalse hstr =>
              split at h
              case isTrue hid =>
                split at h
                case isTrue hcall =>
                  cases hargs : parseArgsR f rest.tail [] (c + 1) with
                  | none => rw [hargs] at h; simp at h
                  | some r =>
                    obtain ⟨args, ts1, c2⟩ := r
                    rw [hargs] at h
                    simp only [setChildren, Option.some.injEq, Prod.mk.injEq] at h
                    obtain ⟨rfl, rfl, rfl⟩ := h
                    have hids0 : ExprIds (c + 1) (c + 1) (collectIdsF ([] : List ASTNode)) := by
                      rw [collectIdsF_nil]; exact exprIds_nil _
                    obtain ⟨hle1, hc2, hids1, harr1⟩ :=
                      ihArgs rest.tail [] (c + 1) (c + 1) args ts1 c2
                        (le_refl _) hids0 arityStrictF_nil hargs
                    have htl : rest.tail.length ≤ rest.length := by
                      rw [List.length_tail]; omega
                    refine ⟨?_, ?_, by omega, ?_, ?_⟩
                    · calc ts1.length ≤ rest.tail.length := hle1
                        _ ≤ rest.length := htl
                        _ ≤ (t :: rest).length := by simp only [List.length_cons]; omega
                    · intro hne
                      calc ts1.length ≤ rest.tail.length := hle1
                        _ ≤ rest.length := htl
                        _ < (t :: rest).length := by simp only [List.length_cons]; omega
                    · rw [collectIds_mk]
                      exact hids1.consHead hc2
                    · rw [arityStrict_mk]
                      simp [harr1]
                case isFalse hcall =>
                  simp only [Option.some.injEq, Prod.mk.injEq] at h
                  obtain ⟨rfl, rfl, rfl⟩ := h
                  refine ⟨by simp only [List.length_cons]; omega,
                    fun hne => by simp only [List.length_cons]; omega, Nat.le_succ _, ?_, ?_⟩
                  · rw [collectIds_mk, collectIdsF_nil]
                    exact exprIds_single c
                  · rw [arityStrict_mk, arityStrictF_nil]
                    simp
              case isFalse hid =>
                simp only [Option.some.injEq, Prod.mk.injEq] at h
                obtain ⟨rfl, rfl, rfl⟩ := h
                refine ⟨by simp only [List.length_cons]; omega,
                  fun hne => by simp only [List.length_cons]; omega, Nat.le_succ _, ?_, ?_⟩
                · rw [collectIds_mk, collectIdsF_nil]
                  exact exprIds_single c
                · rw [arityStrict_mk, arityStrictF_nil]
                  simp
    · -- LevelInv parseUnaryR
      intro ts c n ts' c' h
      rw [parseUnaryR.eq_def] at h
      simp only [] at h
      split at h
      case h_2 =>
        exact ihPrim [] c n ts' c' h
      case h_1 t rest =>
        split at h
        case isTrue hop =>
          cases hu : parseUnaryR f rest c with
          | none => rw [hu] at h; simp at h
          | some r =>
            obtain ⟨opnd, ts1, c1⟩ := r
            rw [hu] at h
            simp only [createNode, Option.some.injEq, Prod.mk.injEq] at h
            obtain ⟨rfl, rfl, rfl⟩ := h
            obtain ⟨hle1, hlt1, hc1, hids1, har1⟩ := ihUn rest c opnd ts1 c1 hu
            refine ⟨?_, ?_, by omega, ?_, ?_⟩
            · calc ts1.length ≤ rest.length := hle1
                _ ≤ (t :: rest).length := by simp only [List.length_cons]; omega
            · intro hne
              calc ts1.length ≤ rest.length := hle1
                _ < (t :: rest).length := by simp only [List.length_cons]; omega
            · rw [collectIds_mk, collectIdsF_cons, collectIdsF_nil]
              simp only [List.append_nil]
              exact hids1.consAfter hc1
            · rw [arityStrict_mk, arityStrictF_cons, arityStrictF_nil]
              simp [har1]
        case isFalse hop =>
          exact ihPrim (t :: rest) c n ts' c' h
    · -- LevelInv parseMulDivR
      intro ts c n ts' c' h
      rw [parseMulDivR.eq_def] at h
      simp only [] at h
      cases hu : parseUnaryR f ts c with
      | none => rw [hu] at h; simp at h
      | some r =>
        obtain ⟨l, ts1, c1⟩ := r
        rw [hu] at h
        obtain ⟨hle1, hlt1, hc1, hids1, har1⟩ := ihUn ts c l ts1 c1 hu
        obtain ⟨hle2, hc2, hids2, har2⟩ := ihMulL l ts1 c1 c n ts' c' hc1 hids1 har1 h
        exact ⟨le_trans hle2 hle1, fun hne => lt_of_le_of_lt hle2 (hlt1 hne),
          le_trans hc1 hc2, hids2, har2⟩
    · -- LevelInv parseAddSubR
      intro ts c n ts' c' h
      rw [parseAddSubR.eq_def] at h
      simp only [] at h
      cases hu : parseMulDivR f ts c with
      | none => rw [hu] at h; simp at h
      | some r =>
        obtain ⟨l, ts1, c1⟩ := r
        rw [hu] at h
        obtain ⟨hle1, hlt1, hc1, hids1, har1⟩ := ihMul ts c l ts1 c1 hu
        obtain ⟨hle2, hc2, hids2, har2⟩ := ihAddL l ts1 c1 c n ts' c' hc1 hids1 har1 h
        exact ⟨le_trans hle2 hle1, fun hne => lt_of_le_of_lt hle2 (hlt1 hne),
          le_trans hc1 hc2, hids2, har2⟩
    · -- LevelInv parseComparisonR
      intro ts c n ts' c' h
      rw [parseComparisonR.eq_def] at h
      simp only [] at h
      cases hu : parseAddSubR f ts c with
      | none => rw [hu] at h; simp at h
      | some r =>
        obtain ⟨l, ts1, c1⟩ := r
        rw [hu] at h
        obtain ⟨hle1, hlt1, hc1, hids1, har1⟩ := ihAdd ts c l ts1 c1 hu
        obtain ⟨hle2, hc2, hids2, har2⟩ := ihCompL l ts1 c1 c n ts' c' hc1 hids1 har1 h
        exact ⟨le_trans hle2 hle1, fun hne => lt_of_le_of_lt hle2 (hlt1 hne),
          le_trans hc1 hc2, hids2, har2⟩
    · -- LevelInv parseEqualityR
      intro ts c n ts' c' h
      rw [parseEqualityR.eq_def] at h
      simp only [] at h
      cases hu : parseComparisonR f ts c with
      | none => rw [hu] at h; simp at h
      | some r =>
        obtain ⟨l, ts1, c1⟩ := r
        rw [hu] at h
        obtain ⟨hle1, hlt1, hc1, hids1, har1⟩ := ihComp ts c l ts1 c1 hu
        obtain ⟨hle2, hc2, hids2, har2⟩ := ihEqL l ts1 c1 c n ts' c' hc1 hids1 har1 h
        exact ⟨le_trans hle2 hle1, fun hne => lt_of_le_of_lt hle2 (hlt1 hne),
          le_trans hc1 hc2, hids2, har2⟩
    · -- LevelInv parseLogicalAndR
      intro ts c n ts' c' h
      rw [parseLogicalAndR.eq_def] at h
      simp only [] at h
      cases hu : parseEqualityR f ts c with
      | none => rw [hu] at h; simp at h
      | some r =>
        obtain ⟨l, ts1, c1⟩ := r
        rw [hu] at h
        obtain ⟨hle1, hlt1, hc1, hids1, har1⟩ := ihEq ts c l ts1 c1 hu
        obtain ⟨hle2, hc2, hids2, har2⟩ := ihAndL l ts1 c1 c n ts' c' hc1 hids1 har1 h
        exact ⟨le_trans hle2 hle1, fun hne => lt_of_le_of_lt hle2 (hlt1 hne),
          le_trans hc1 hc2, hids2, har2⟩
    · -- LevelInv parseLogicalOrR
      intro ts c n ts' c' h
      rw [parseLogicalOrR.eq_def] at h
      simp only [] at h
      cases hu : parseLogicalAndR f ts c with
      | none => rw [hu] at h; simp at h
      | some r =>
        obtain ⟨l, ts1, c1⟩ := r
        rw [hu] at h
        obtain ⟨hle1, hlt1, hc1, hids1, har1⟩ := ihAnd ts c l ts1 c1 hu
        obtain ⟨hle2, hc2, hids2, har2⟩ := ihOrL l ts1 c1 c n ts' c' hc1 hids1 har1 h
        exact ⟨le_trans hle2 hle1, fun hne => lt_of_le_of_lt hle2 (hlt1 hne),
          le_trans hc1 hc2, hids2, har2⟩
    · -- LoopInv mulLoopR
      intro left ts c a n ts' c' ha hids har h
      rw [mulLoopR.eq_def] at h
      simp only [] at h
      split at h
      case h_2 =>
        simp only [Option.some.injEq, Prod.mk.injEq] at h
        obtain ⟨rfl, rfl, rfl⟩ := h
        exact ⟨le_refl _, le_refl _, hids, har⟩
      case h_1 t rest =>
        split at h
        case isTrue hop =>
          cases hr : parseUnaryR f rest c with
          | none => rw [hr] at h; simp at h
          | some r =>
            obtain ⟨right, ts1, c1⟩ := r
            rw [hr] at h
            simp only [createNode] at h
            obtain ⟨hle1, hlt1, hc1, hids1, har1⟩ := ihUn rest c right ts1 c1 hr
            have hids2 : ExprIds a (c1 + 1)
                (collectIds (ASTNode.mk (c1 + 1) .binary_op t .operator [left, right])) := by
              rw [collectIds_mk, collectIdsF_cons, collectIdsF_cons, collectIdsF_nil]
              simp only [List.append_nil]
              exact (hids.append hids1 ha hc1).consAfter (le_trans ha hc1)
            have har2 : arityStrict
                (ASTNode.mk (c1 + 1) .binary_op t .operator [left, right]) = true := by
              rw [arityStrict_mk, arityStrictF_cons, arityStrictF_cons, arityStrictF_nil]
              simp [har, har1]
            obtain ⟨hle3, hc3, hids3, har3⟩ :=
              ihMulL _ ts1 (c1 + 1) a n ts' c'
                (le_trans ha (le_trans hc1 (Nat.le_succ _))) hids2 har2 h
            refine ⟨?_, ?_, hids3, har3⟩
            · calc ts'.length ≤ ts1.length := hle3
                _ ≤ rest.length := hle1
                _ ≤ (t :: rest).length := by simp only [List.length_cons]; omega
            · omega
        case isFalse hop =>
          simp only [Option.some.injEq, Prod.mk.injEq] at h
          obtain ⟨rfl, rfl, rfl⟩ := h
          exact ⟨le_refl _, le_refl _, hids, har⟩
    · -- LoopInv addLoopR
      intro left ts c a n ts' c' ha hids har h
      rw [addLoopR.eq_def] at h
      simp only [] at h
      split at h
      case h_2 =>
        simp only [Option.some.injEq, Prod.mk.injEq] at h
        obtain ⟨rfl, rfl, rfl⟩ := h
        exact ⟨le_refl _, le_refl _, hids, har⟩
      case h_1 t rest =>
        split at h
        case isTrue hop =>
          cases hr : parseMulDivR f rest c with
          | none => rw [hr] at h; simp at h
          | some r =>
            obtain ⟨right, ts1, c1⟩ := r
            rw [hr] at h
            simp only [createNode] at h
            obtain ⟨hle1, hlt1, hc1, hids1, har1⟩ := ihMul rest c right ts1 c1 hr
            have hids2 : ExprIds a (c1 + 1)
                (collectIds (ASTNode.mk (c1 + 1) .binary_op t .operator [left, right])) := by
              rw [collectIds_mk, collectIdsF_cons, collectIdsF_cons, collectIdsF_nil]
              simp only [List.append_nil]
              exact (hids.append hids1 ha hc1).consAfter (le_trans ha hc1)
            have har2 : arityStrict
                (ASTNode.mk (c1 + 1) .binary_op t .operator [left, right]) = true := by
              rw [arityStrict_mk, arityStrictF_cons, arityStrictF_cons, arityStrictF_nil]
              simp [har, har1]
            obtain ⟨hle3, hc3, hids3, har3⟩ :=
              ihAddL _ ts1 (c1 + 1) a n ts' c'
                (le_trans ha (le_trans hc1 (Nat.le_succ _))) hids2 har2 h
            refine ⟨?_, ?_, hids3, har3⟩
            · calc ts'.length ≤ ts1.length := hle3
                _ ≤ rest.length := hle1
                _ ≤ (t :: rest).length := by simp only [List.length_cons]; omega
            · omega
        case isFalse hop =>
          simp only [Option.some.injEq, Prod.mk.injEq] at h
          obtain ⟨rfl, rfl, rfl⟩ := h
          exact ⟨le_refl _, le_refl _, hids, har⟩
    · -- LoopInv compLoopR
      intro left ts c a n ts' c' ha hids har h
      rw [compLoopR.eq_def] at h
      simp only [] at h
      split at h
      case h_2 =>
        simp only [Option.some.injEq, Prod.mk.injEq] at h
        obtain ⟨rfl, rfl, rfl⟩ := h
        exact ⟨le_refl _, le_refl _, hids, har⟩
      case h_1 t rest =>
        split at h
        case isTrue hop =>
          cases hr : parseAddSubR f rest c with
          | none => rw [hr] at h; simp at h
          | some r =>
            obtain ⟨right, ts1, c1⟩ := r
            rw [hr] at h
            simp only [createNode] at h
            obtain ⟨hle1, hlt1, hc1, hids1, har1⟩ := ihAdd rest c right ts1 c1 hr
            have hids2 : ExprIds a (c1 + 1)
                (collectIds (ASTNode.mk (c1 + 1) .binary_op t .operator [left, right])) := by
              rw [collectIds_mk, collectIdsF_cons, collectIdsF_cons, collectIdsF_nil]
              simp only [List.append_nil]
              exact (hids.append hids1 ha hc1).consAfter (le_trans ha hc1)
            have har2 : arityStrict
                (ASTNode.mk (c1 + 1) .binary_op t .operator [left, right]) = true := by
              rw [arityStrict_mk, arityStrictF_cons, arityStrictF_cons, arityStrictF_nil]
              simp [har, har1]
            obtain ⟨hle3, hc3, hids3, har3⟩ :=
              ihCompL _ ts1 (c1 + 1) a n ts' c'
                (le_trans ha (le_trans hc1 (Nat.le_succ _))) hids2 har2 h
            refine ⟨?_, ?_, hids3, har3⟩
            · calc ts'.length ≤ ts1.length := hle3
                _ ≤ rest.length := hle1
                _ ≤ (t :: rest).length := by simp only [List.length_cons]; omega
            · omega
        case isFalse hop =>
          simp only [Option.some.injEq, Prod.mk.injEq] at h
          obtain ⟨rfl, rfl, rfl⟩ := h
          exact ⟨le_refl _, le_refl _, hids, har⟩
    · -- LoopInv eqLoopR
      intro left ts c a n ts' c' ha hids har h
      rw [eqLoopR.eq_def] at h
      simp only [] at h
      split at h
      case h_2 =>
        simp only [Option.some.injEq, Prod.mk.injEq] at h
        obtain ⟨rfl, rfl, rfl⟩ := h
        exact ⟨le_refl _, le_refl _, hids, har⟩
      case h_1 t rest =>
        split at h
        case isTrue hop =>
          cases hr : parseComparisonR f rest c with
          | none => rw [hr] at h; simp at h
          | some r =>
            obtain ⟨right, ts1, c1⟩ := r
            rw [hr] at h
            simp only [createNode] at h
            obtain ⟨hle1, hlt1, hc1, hids1, har1⟩ := ihComp rest c right ts1 c1 hr
            have hids2 : ExprIds a (c1 + 1)
                (collectIds (ASTNode.mk (c1 + 1) .binary_op t .operator [left, right])) := by
              rw [collectIds_mk, collectIdsF_cons, collectIdsF_cons, collectIdsF_nil]
              simp only [List.append_nil]
              exact (hids.append hids1 ha hc1).consAfter (le_trans ha hc1)
            have har2 : arityStrict
                (ASTNode.mk (c1 + 1) .binary_op t .operator [left, right]) = true := by
              rw [arityStrict_mk, arityStrictF_cons, arityStrictF_cons, arityStrictF_nil]
              simp [har, har1]
            obtain ⟨hle3, hc3, hids3, har3⟩ :=
              ihEqL _ ts1 (c1 + 1) a n ts' c'
                (le_trans ha (le_trans hc1 (Nat.le_succ _))) hids2 har2 h
            refine ⟨?_, ?_, hids3, har3⟩
            · calc ts'.length ≤ ts1.length := hle3
                _ ≤ rest.length := hle1
                _ ≤ (t :: rest).length := by simp only [List.length_cons]; omega
            · omega
        case isFalse hop =>
          simp only [Option.some.injEq, Prod.mk.injEq] at h
          obtain ⟨rfl, rfl, rfl⟩ := h
          exact ⟨le_refl _, le_refl _, hids, har⟩
    · -- LoopInv andLoopR
      intro left ts c a n ts' c' ha hids har h
      rw [andLoopR.eq_def] at h
      simp only [] at h
      split at h
      case h_2 =>
        simp only [Option.some.injEq, Prod.mk.injEq] at h
        obtain ⟨rfl, rfl, rfl⟩ := h
        exact ⟨le_refl _, le_refl _, hids, har⟩
      case h_1 t rest =>
        split at h
        case isTrue hop =>
          cases hr : parseEqualityR f rest c with
          | none => rw [hr] at h; simp at h
          | some r =>
            obtain ⟨right, ts1, c1⟩ := r
            rw [hr] at h
            simp only [createNode] at h
            obtain ⟨hle1, hlt1, hc1, hids1, har1⟩ := ihEq rest c right ts1 c1 hr
            have hids2 : ExprIds a (c1 + 1)
                (collectIds (ASTNode.mk (c1 + 1) .binary_op t .operator [left, right])) := by
              rw [collectIds_mk, collectIdsF_cons, collectIdsF_cons, collectIdsF_nil]
              simp only [List.append_nil]
              exact (hids.append hids1 ha hc1).consAfter (le_trans ha hc1)
            have har2 : arityStrict
                (ASTNode.mk (c1 + 1) .binary_op t .operator [left, right]) = true := by
              rw [arityStrict_mk, arityStrictF_cons, arityStrictF_cons, arityStrictF_nil]
              simp [har, har1]
            obtain ⟨hle3, hc3, hids3, har3⟩ :=
              ihAndL _ ts1 (c1 + 1) a n ts' c'
                (le_trans ha (le_trans hc1 (Nat.le_succ _))) hids2 har2 h
            refine ⟨?_, ?_, hids3, har3⟩
            · calc ts'.length ≤ ts1.length := hle3
                _ ≤ rest.length := hle1
                _ ≤ (t :: rest).length := by simp only [List.length_cons]; omega
            · omega
        case isFalse hop =>
          simp only [Option.some.injEq, Prod.mk.injEq] at h
          obtain ⟨rfl, rfl, rfl⟩ := h
          exact ⟨le_refl _, le_refl _, hids, har⟩
    · -- LoopInv orLoopR
      intro left ts c a n ts' c' ha hids har h
      rw [orLoopR.eq_def] at h
      simp only [] at h
      split at h
      case h_2 =>
        simp only [Option.some.injEq, Prod.mk.injEq] at h
        obtain ⟨rfl, rfl, rfl⟩ := h
        exact ⟨le_refl _, le_refl _, hids, har⟩
      case h_1 t rest =>
        split at h
        case isTrue hop =>
          cases hr : parseLogicalAndR f rest c with
          | none => rw [hr] at h; simp at h
          | some r =>
            obtain ⟨right, ts1, c1⟩ := r
            rw [hr] at h
            simp only [createNode] at h
            obtain ⟨hle1, hlt1, hc1, hids1, har1⟩ := ihAnd rest c right ts1 c1 hr
            have hids2 : ExprIds a (c1 + 1)
                (collectIds (ASTNode.mk (c1 + 1) .binary_op t .operator [left, right])) := by
              rw [collectIds_mk, collectIdsF_cons, collectIdsF_cons, collectIdsF_nil]
              simp only [List.append_nil]
              exact (hids.append hids1 ha hc1).consAfter (le_trans ha hc1)
            have har2 : arityStrict
                (ASTNode.mk (c1 + 1) .binary_op t .operator [left, right]) = true := by
              rw [arityStrict_mk, arityStrictF_cons, arityStrictF_cons, arityStrictF_nil]
              simp [har, har1]
            obtain ⟨hle3, hc3, hids3, har3⟩ :=
              ihOrL _ ts1 (c1 + 1) a n ts' c'
                (le_trans ha (le_trans hc1 (Nat.le_succ _))) hids2 har2 h
            refine ⟨?_, ?_, hids3, har3⟩
            · calc ts'.length ≤ ts1.length := hle3
                _ ≤ rest.length := hle1
                _ ≤ (t :: rest).length := by simp only [List.length_cons]; omega
            · omega
        case isFalse hop =>
          simp only [Option.some.injEq, Prod.mk.injEq] at h
          obtain ⟨rfl, rfl, rfl⟩ := h
          exact ⟨le_refl _, le_refl _, hids, har⟩
    · -- ArgsInvR
      intro ts acc c a args ts' c' ha hids harr h
      rw [parseArgsR.eq_def] at h
      simp only [] at h
      split at h
      case h_1 =>
        simp only [Option.some.injEq, Prod.mk.injEq] at h
        obtain ⟨rfl, rfl, rfl⟩ := h
        exact ⟨le_refl _, le_refl _, hids, harr⟩
      case h_2 t rest =>
        split at h
        case isTrue hpar =>
          simp only [Option.some.injEq, Prod.mk.injEq] at h
          obtain ⟨rfl, rfl, rfl⟩ := h
          exact ⟨by simp only [List.length_cons]; omega, le_refl _, hids, harr⟩
        case isFalse hpar =>
          cases hlo : parseLogicalOrR f (t :: rest) c with
          | none => rw [hlo] at h; simp at h
          | some r =>
            obtain ⟨arg, ts1, c1⟩ := r
            rw [hlo] at h
            simp only [] at h
            obtain ⟨hle1, hlt1, hc1, hids1, har1⟩ := ihOr (t :: rest) c arg ts1 c1 hlo
            have hidsacc : ExprIds a c1 (collectIdsF (acc ++ [arg])) := by
              rw [collectIdsF_append, collectIdsF_cons, collectIdsF_nil]
              simp only [List.append_nil]
              exact hids.append hids1 ha hc1
            have harracc : arityStrictF (acc ++ [arg]) = true := by
              rw [arityStrictF_append, arityStrictF_cons, arityStrictF_nil]
              simp [harr, har1]
            obtain ⟨hle3, hc3, hids3, harr3⟩ :=
              ihArgs _ (acc ++ [arg]) c1 a args ts' c' (le_trans ha hc1) hidsacc harracc h
            have hts2 : (if ts1.head? = some "," then ts1.tail else ts1).length ≤ ts1.length := by
              split
              · rw [List.length_tail]; omega
              · exact le_refl _
            refine ⟨?_, le_trans hc1 hc3, hids3, harr3⟩
            calc ts'.length ≤ _ := hle3
              _ ≤ ts1.length := hts2
              _ ≤ (t :: rest).length := hle1

/-! Projections of `richInv`. -/

theorem primInvR (f : Nat) : LevelInv parsePrimaryR f := (richInv f).1

theorem unInvR (f : Nat) : LevelInv parseUnaryR f := (richInv f).2.1

theorem mulInvR (f : Nat) : LevelInv parseMulDivR f := (richInv f).2.2.1

theorem addInvR (f : Nat) : LevelInv parseAddSubR f := (richInv f).2.2.2.1

theorem compInvR (f : Nat) : LevelInv parseComparisonR f := (richInv f).2.2.2.2.1

theorem eqInvR (f : Nat) : LevelInv parseEqualityR f := (richInv f).2.2.2.2.2.1

theorem andInvR (f : Nat) : LevelInv parseLogicalAndR f := (richInv f).2.2.2.2.2.2.1

theorem orInvR (f : Nat) : LevelInv parseLogicalOrR f := (richInv f).2.2.2.2.2.2.2.1

theorem mulLoopInvR (f : Nat) : LoopInv mulLoopR f := (richInv f).2.2.2.2.2.2.2.2.1

theorem addLoopInvR (f : Nat) : LoopInv addLoopR f := (richInv f).2.2.2.2.2.2.2.2.2.1

theorem compLoopInvR (f : Nat) : LoopInv compLoopR f := (richInv f).2.2.2.2.2.2.2.2.2.2.1

theorem eqLoopInvR (f : Nat) : LoopInv eqLoopR f := (richInv f).2.2.2.2.2.2.2.2.2.2.2.1

theorem andLoopInvR (f : Nat) : LoopInv andLoopR f := (richInv f).2.2.2.2.2.2.2.2.2.2.2.2.1

theorem orLoopInvR (f : Nat) : LoopInv orLoopR f := (richInv f).2.2.2.2.2.2.2.2.2.2.2.2.2.1

theorem argsInvOfR (f : Nat) : ArgsInvR f := (richInv f).2.2.2.2.2.2.2.2.2.2.2.2.2.2

/-! ## Totality of the richer expression parser -/

theorem richTot : ∀ f, RichTot f := by
  intro f
  induction f with
  | zero =>
    refine ⟨?_, ?_, ?_, ?_, ?_, ?_, ?_, ?_, ?_, ?_, ?_, ?_, ?_, ?_, ?_⟩
    · intro ts c hf
      exact absurd hf (by omega)
    · intro ts c hf
      exact absurd hf (by omega)
    · intro ts c hf
      exact absurd hf (by omega)
    · intro ts c hf
      exact absurd hf (by omega)
    · intro ts c hf
      exact absurd hf (by omega)
    · intro ts c hf
      exact absurd hf (by omega)
    · intro ts c hf
      exact absurd hf (by omega)
    · intro ts c hf
      exact absurd hf (by omega)
    · intro left ts c hf
      exact absurd hf (by omega)
    · intro left ts c hf
      exact absurd hf (by omega)
    · intro left ts c hf
      exact absurd hf (by omega)
    · intro left ts c hf
      exact absurd hf (by omega)
    · intro left ts c hf
      exact absurd hf (by omega)
    · intro left ts c hf
      exact absurd hf (by omega)
    · intro ts acc c hf
      exact absurd hf (by omega)
  | succ f ih =>
    obtain ⟨ihPrimT, ihUnT, ihMulT, ihAddT, ihCompT, ihEqT, ihAndT, ihOrT,
      ihMulLT, ihAddLT, ihCompLT, ihEqLT, ihAndLT, ihOrLT, ihArgsT⟩ := ih
    refine ⟨?_, ?_, ?_, ?_, ?_, ?_, ?_, ?_, ?_, ?_, ?_, ?_, ?_, ?_, ?_⟩
    · -- parsePrimaryR, k = 1
      intro ts c hf
      cases ts with
      | nil =>
        rw [parsePrimaryR.eq_def]
        simp
      | cons t rest =>
        rw [parsePrimaryR.eq_def]
        simp only [createNode]
        simp only [List.length_cons] at hf
        split
        · have hO : (parseLogicalOrR f rest c).isSome :=
            ihOrT rest c (by omega)
          obtain ⟨r, hr⟩ := Option.isSome_iff_exists.mp hO
          obtain ⟨e, ts1, c1⟩ := r
          rw [hr]
          simp
        · split
          · simp
          · split
            · simp
            · split
              · split
                · have htl : rest.tail.length ≤ rest.length := by
                    rw [List.length_tail]; omega
                  have hA : (parseArgsR f rest.tail [] (c + 1)).isSome :=
                    ihArgsT rest.tail [] (c + 1) (by omega)
                  obtain ⟨r, hr⟩ := Option.isSome_iff_exists.mp hA
                  obtain ⟨args, ts1, c2⟩ := r
                  rw [hr]
                  simp
                · simp
              · simp
    · -- parseUnaryR, k = 2
      intro ts c hf
      cases ts with
      | nil =>
        rw [parseUnaryR.eq_def]
        simp only []
        exact ihPrimT [] c (by simp at hf ⊢; omega)
      | cons t rest =>
        rw [parseUnaryR.eq_def]
        simp only []
        simp only [List.length_cons] at hf
        split
        · have hU : (parseUnaryR f rest c).isSome := ihUnT rest c (by omega)
          obtain ⟨r, hr⟩ := Option.isSome_iff_exists.mp hU
          obtain ⟨opnd, ts1, c1⟩ := r
          rw [hr]
          simp [createNode]
        · exact ihPrimT (t :: rest) c (by simp only [List.length_cons]; omega)
    · -- parseMulDivR, k = 3
      intro ts c hf
      rw [parseMulDivR.eq_def]
      simp only []
      have hS := ihUnT ts c (by omega)
      obtain ⟨r, hr⟩ := Option.isSome_iff_exists.mp hS
      obtain ⟨l, ts1, c1⟩ := r
      rw [hr]
      obtain ⟨hle1, hlt1, hc1, hids1, har1⟩ := unInvR f ts c l ts1 c1 hr
      exact ihMulLT l ts1 c1 (by omega)
    · -- parseAddSubR, k = 4
      intro ts c hf
      rw [parseAddSubR.eq_def]
      simp only []
      have hS := ihMulT ts c (by omega)
      obtain ⟨r, hr⟩ := Option.isSome_iff_exists.mp hS
      obtain ⟨l, ts1, c1⟩ := r
      rw [hr]
      obtain ⟨hle1, hlt1, hc1, hids1, har1⟩ := mulInvR f ts c l ts1 c1 hr
      exact ihAddLT l ts1 c1 (by omega)
    · -- parseComparisonR, k = 5
      intro ts c hf
      rw [parseComparisonR.eq_def]
      simp only []
      have hS := ihAddT ts c (by omega)
      obtain ⟨r, hr⟩ := Option.isSome_iff_exists.mp hS
      obtain ⟨l, ts1, c1⟩ := r
      rw [hr]
      obtain ⟨hle1, hlt1, hc1, hids1, har1⟩ := addInvR f ts c l ts1 c1 hr
      exact ihCompLT l ts1 c1 (by omega)
    · -- parseEqualityR, k = 6
      intro ts c hf
      rw [parseEqualityR.eq_def]
      simp only []
      have hS := ihCompT ts c (by omega)
      obtain ⟨r, hr⟩ := Option.isSome_iff_exists.mp hS
      obtain ⟨l, ts1, c1⟩ := r
      rw [hr]
      obtain ⟨hle1, hlt1, hc1, hids1, har1⟩ := compInvR f ts c l ts1 c1 hr
      exact ihEqLT l ts1 c1 (by omega)
    · -- parseLogicalAndR, k = 7
      intro ts c hf
      rw [parseLogicalAndR.eq_def]
      simp only []
      have hS := ihEqT ts c (by omega)
      obtain ⟨r, hr⟩ := Option.isSome_iff_exists.mp hS
      obtain ⟨l, ts1, c1⟩ := r
      rw [hr]
      obtain ⟨hle1, hlt1, hc1, hids1, har1⟩ := eqInvR f ts c l ts1 c1 hr
      exact ihAndLT l ts1 c1 (by omega)
    · -- parseLogicalOrR, k = 8
      intro ts c hf
      rw [parseLogicalOrR.eq_def]
      simp only []
      have hS := ihAndT ts c (by omega)
      obtain ⟨r, hr⟩ := Option.isSome_iff_exists.mp hS
      obtain ⟨l, ts1, c1⟩ := r
      rw [hr]
      obtain ⟨hle1, hlt1, hc1, hids1, har1⟩ := andInvR f ts c l ts1 c1 hr
      exact ihOrLT l ts1 c1 (by omega)
    · -- mulLoopR, k = 2
      intro left ts c hf
      cases ts with
      | nil =>
        rw [mulLoopR.eq_def]
        simp
      | cons t rest =>
        rw [mulLoopR.eq_def]
        simp only []
        simp only [List.length_cons] at hf
        split
        · have hS : (parseUnaryR f rest c).isSome := ihUnT rest c (by omega)
          obtain ⟨r, hr⟩ := Option.isSome_iff_exists.mp hS
          obtain ⟨right, ts1, c1⟩ := r
          rw [hr]
          simp only [createNode]
          obtain ⟨hle1, hlt1, hc1, hids1, har1⟩ := unInvR f rest c right ts1 c1 hr
          exact ihMulLT _ ts1 (c1 + 1) (by omega)
        · simp
    · -- addLoopR, k = 3
      intro left ts c hf
      cases ts with
      | nil =>
        rw [addLoopR.eq_def]
        simp
      | cons t rest =>
        rw [addLoopR.eq_def]
        simp only []
        simp only [List.length_cons] at hf
        split
        · have hS : (parseMulDivR f rest c).isSome := ihMulT rest c (by omega)
          obtain ⟨r, hr⟩ := Option.isSome_iff_exists.mp hS
          obtain ⟨right, ts1, c1⟩ := r
          rw [hr]
          simp only [createNode]
          obtain ⟨hle1, hlt1, hc1, hids1, har1⟩ := mulInvR f rest c right ts1 c1 hr
          exact ihAddLT _ ts1 (c1 + 1) (by omega)
        · simp
    · -- compLoopR, k = 4
      intro left ts c hf
      cases ts with
      | nil =>
        rw [compLoopR.eq_def]
        simp
      | cons t rest =>
        rw [compLoopR.eq_def]
        simp only []
        simp only [List.length_cons] at hf
        split
        · have hS : (parseAddSubR f rest c).isSome := ihAddT rest c (by omega)
          obtain ⟨r, hr⟩ := Option.isSome_iff_exists.mp hS
          obtain ⟨right, ts1, c1⟩ := r
          rw [hr]
          simp only [createNode]
          obtain ⟨hle1, hlt1, hc1, hids1, har1⟩ := addInvR f rest c right ts1 c1 hr
          exact ihCompLT _ ts1 (c1 + 1) (by omega)
        · simp
    · -- eqLoopR, k = 5
      intro left ts c hf
      cases ts with
      | nil =>
        rw [eqLoopR.eq_def]
        simp
      | cons t rest =>
        rw [eqLoopR.eq_def]
        simp only []
        simp only [List.length_cons] at hf
        split
        · have hS : (parseComparisonR f rest c).isSome := ihCompT rest c (by omega)
          obtain ⟨r, hr⟩ := Option.isSome_iff_exists.mp hS
          obtain ⟨right, ts1, c1⟩ := r
          rw [hr]
          simp only [createNode]
          obtain ⟨hle1, hlt1, hc1, hids1, har1⟩ := compInvR f rest c right ts1 c1 hr
          exact ihEqLT _ ts1 (c1 + 1) (by omega)
        · simp
    · -- andLoopR, k = 6
      intro left ts c hf
      cases ts with
      | nil =>
        rw [andLoopR.eq_def]
        simp
      | cons t rest =>
        rw [andLoopR.eq_def]
        simp only []
        simp only [List.length_cons] at hf
        split
        · have hS : (parseEqualityR f rest c).isSome := ihEqT rest c (by omega)
          obtain ⟨r, hr⟩ := Option.isSome_iff_exists.mp hS
          obtain ⟨right, ts1, c1⟩ := r
          rw [hr]
          simp only [createNode]
          obtain ⟨hle1, hlt1, hc1, hids1, har1⟩ := eqInvR f rest c right ts1 c1 hr
          exact ihAndLT _ ts1 (c1 + 1) (by omega)
        · simp
    · -- orLoopR, k = 7
      intro left ts c hf
      cases ts with
      | nil =>
        rw [orLoopR.eq_def]
        simp
      | cons t rest =>
        rw [orLoopR.eq_def]
        simp only []
        simp only [List.length_cons] at hf
        split
        · have hS : (parseLogicalAndR f rest c).isSome := ihAndT rest c (by omega)
          obtain ⟨r, hr⟩ := Option.isSome_iff_exists.mp hS
          obtain ⟨right, ts1, c1⟩ := r
          rw [hr]
          simp only [createNode]
          obtain ⟨hle1, hlt1, hc1, hids1, har1⟩ := andInvR f rest c right ts1 c1 hr
          exact ihOrLT _ ts1 (c1 + 1) (by omega)
        · simp
    · -- parseArgsR, k = 9
      intro ts acc c hf
      cases ts with
      | nil =>
        rw [parseArgsR.eq_def]
        simp
      | cons t rest =>
        rw [parseArgsR.eq_def]
        simp only []
        simp only [List.length_cons] at hf
        split
        · simp
        · have hO : (parseLogicalOrR f (t :: rest)  c).isSome :=
            ihOrT (t :: rest) c (by simp only [List.length_cons]; omega)
          obtain ⟨r, hr⟩ := Option.isSome_iff_exists.mp hO
          obtain ⟨arg, ts1, c1⟩ := r
          rw [hr]
          simp only []
          obtain ⟨hle1, hlt1, hc1, hids1, har1⟩ := orInvR f (t :: rest) c arg ts1 c1 hr
          have hstrict : ts1.length < rest.length + 1 := by
            have := hlt1 (by simp)
            simpa using this
          have hts2 : (if ts1.head? = some "," then ts1.tail else ts1).length ≤ ts1.length := by
            split
            · rw [List.length_tail]; omega
            · exact le_refl _
          exact ihArgsT _ (acc ++ [arg]) c1 (by omega)

theorem orTotR (f : Nat) : LevelTot parseLogicalOrR 8 f :=
  (richTot f).2.2.2.2.2.2.2.1

theorem parseExpressionRecursive_spec (input : String) (c : Nat) :
    ∃ n c', parseExpressionRecursive input c = some (n, c') ∧ c ≤ c' ∧
      ExprIds c c' (collectIds n) ∧ arityStrict n = true := by
  unfold parseExpressionRecursive
  have htot : (parseLogicalOrR (richFuel (tokenizeExpression input))
      (tokenizeExpression input) c).isSome :=
    orTotR _ (tokenizeExpression input) c (by unfold richFuel; omega)
  obtain ⟨r, hr⟩ := Option.isSome_iff_exists.mp htot
  obtain ⟨n, ts1, c1⟩ := r
  rw [hr]
  obtain ⟨_, _, hc, hids, har⟩ := orInvR _ _ c n ts1 c1 hr
  exact ⟨n, c1, rfl, hc, hids, har⟩

theorem parseVariableDeclaration_spec (s lang : String) (c : Nat) :
    ∃ n c', parseVariableDeclaration s lang c = some (n, c') ∧ c ≤ c' ∧
      IdsIn c c' (collectIds n) ∧ arityStrict n = true ∧
      n.type = .variable_declaration := by
  unfold parseVariableDeclaration
  simp only [createNode, setChildren]
  split
  case isTrue hrp =>
    refine ⟨_, _, rfl, by omega, ?_, ?_, rfl⟩
    · rw [collectIds_mk, collectIdsF_cons, collectIdsF_cons, collectIdsF_nil,
        collectIds_mk, collectIds_mk, collectIdsF_nil]
      simp only [List.append_nil, List.singleton_append]
      refine ⟨?_, ?_⟩
      · simp [List.nodup_cons] <;> omega
      · intro i hi
        simp only [List.mem_cons, List.not_mem_nil, or_false] at hi
        rcases hi with rfl | rfl | rfl <;> omega
    · rw [arityStrict_mk, arityStrictF_cons, arityStrictF_cons, arityStrictF_nil,
        arityStrict_mk, arityStrict_mk, arityStrictF_nil]
      simp
  case isFalse hrp =>
    obtain ⟨v, c6, hv, hcv, hidsv, harv⟩ :=
      parseExpressionRecursive_spec
        ((((splitChar '=' (jsTrim (removeFirst s ";"))).get? 1).map jsTrim).getD "")
        (c + 5)
    rw [hv]
    refine ⟨_, _, rfl, by omega, ?_, ?_, rfl⟩
    · rw [collectIds_mk, collectIdsF_cons, collectIdsF_cons, collectIdsF_cons,
        collectIdsF_nil, collectIds_mk, collectIds_mk, collectIdsF_nil,
        collectIds_mk, collectIdsF_cons, collectIdsF_cons, collectIdsF_nil,
        collectIds_mk, collectIdsF_nil]
      simp only [List.append_nil, List.singleton_append, List.nil_append]
      have h5 : IdsIn (c + 4) c6 ((c + 5) :: collectIds v) :=
        IdsIn.consHeadI (hidsv.toIdsIn hcv) (by omega)
      have h4 : IdsIn (c + 3) c6 ((c + 4) :: (c + 5) :: collectIds v) :=
        IdsIn.consHeadI h5 (by omega)
      have h3 : IdsIn (c + 2) c6 ((c + 3) :: (c + 4) :: (c + 5) :: collectIds v) :=
        IdsIn.consHeadI h4 (by omega)
      have h2 : IdsIn (c + 1) c6 ((c + 2) :: (c + 3) :: (c + 4) :: (c + 5) :: collectIds v) :=
        IdsIn.consHeadI h3 (by omega)
      exact IdsIn.consHeadI h2 (by omega)
    · rw [arityStrict_mk, arityStrictF_cons, arityStrictF_cons, arityStrictF_cons,
        arityStrictF_nil, arityStrict_mk, arityStrict_mk, arityStrictF_nil,
        arityStrict_mk, arityStrictF_cons, arityStrictF_cons, arityStrictF_nil,
        arityStrict_mk, arityStrictF_nil]
      simp [harv]

theorem parseIfStatement_spec (s : String) (c : Nat) :
    ∃ n c', parseIfStatement s c = some (n, c') ∧ c ≤ c' ∧
      IdsIn c c' (collectIds n) ∧ arityStrict n = true ∧
      n.type = .if_statement := by
  unfold parseIfStatement
  simp only [createNode, setChildren]
  split
  case isTrue h =>
    refine ⟨_, _, rfl, by omega, ?_, ?_, rfl⟩
    · rw [collectIds_mk, collectIdsF_nil]
      exact idsIn_single c (c + 1) (le_refl _)
    · rw [arityStrict_mk, arityStrictF_nil]
      simp
  case isFalse h =>
    obtain ⟨v, c2, hv, hcv, hidsv, harv⟩ :=
      parseExpressionRecursive_spec (regexKwParen "if" s) (c + 1)
    rw [hv]
    refine ⟨_, _, rfl, by omega, ?_, ?_, rfl⟩
    · rw [collectIds_mk, collectIdsF_cons, collectIdsF_nil]
      simp only [List.append_nil]
      exact IdsIn.consHeadI (hidsv.toIdsIn hcv) (by omega)
    · rw [arityStrict_mk, arityStrictF_cons, arityStrictF_nil]
      simp [harv]

theorem parseWhileStatement_spec (s : String) (c : Nat) :
    ∃ n c', parseWhileStatement s c = some (n, c') ∧ c ≤ c' ∧
      IdsIn c c' (collectIds n) ∧ arityStrict n = true ∧
      n.type = .while_statement := by
  unfold parseWhileStatement
  simp only [createNode, setChildren]
  split
  case isTrue h =>
    refine ⟨_, _, rfl, by omega, ?_, ?_, rfl⟩
    · rw [collectIds_mk, collectIdsF_nil]
      exact idsIn_single c (c + 1) (le_refl _)
    · rw [arityStrict_mk, arityStrictF_nil]
      simp
  case isFalse h =>
    obtain ⟨v, c2, hv, hcv, hidsv, harv⟩ :=
      parseExpressionRecursive_spec (regexKwParen "while" s) (c + 1)
    rw [hv]
    refine ⟨_, _, rfl, by omega, ?_, ?_, rfl⟩
    · rw [collectIds_mk, collectIdsF_cons, collectIdsF_nil]
      simp only [List.append_nil]
      exact IdsIn.consHeadI (hidsv.toIdsIn hcv) (by omega)
    · rw [arityStrict_mk, arityStrictF_cons, arityStrictF_nil]
      simp [harv]

theorem parseReturnStatement_spec (s : String) (c : Nat) :
    ∃ n c', parseReturnStatement s c = some (n, c') ∧ c ≤ c' ∧
      IdsIn c c' (collectIds n) ∧ arityStrict n = true ∧
      n.type = .return_statement := by
  unfold parseReturnStatement
  simp only [createNode, setChildren]
  split
  case isTrue h =>
    refine ⟨_, _, rfl, by omega, ?_, ?_, rfl⟩
    · rw [collectIds_mk, collectIdsF_nil]
      exact idsIn_single c (c + 1) (le_refl _)
    · rw [arityStrict_mk, arityStrictF_nil]
      simp
  case isFalse h =>
    obtain ⟨v, c2, hv, hcv, hidsv, harv⟩ :=
      parseExpressionRecursive_spec
        (removeFirst (jsTrim (removeFirst s "return")) ";") (c + 1)
    rw [hv]
    refine ⟨_, _, rfl, by omega, ?_, ?_, rfl⟩
    · rw [collectIds_mk, collectIdsF_cons, collectIdsF_nil]
      simp only [List.append_nil]
      exact IdsIn.consHeadI (hidsv.toIdsIn hcv) (by omega)
    · rw [arityStrict_mk, arityStrictF_cons, arityStrictF_nil]
      simp [harv]

theorem parseAssignment_spec (s : String) (c : Nat) :
    ∃ n c', parseAssignment s c = some (n, c') ∧ c ≤ c' ∧
      IdsIn c c' (collectIds n) ∧ arityStrict n = true ∧
      n.type = .assignment := by
  unfold parseAssignment
  simp only [createNode, setChildren]
  split
  case isTrue h =>
    refine ⟨_, _, rfl, by omega, ?_, ?_, rfl⟩
    · rw [collectIds_mk, collectIdsF_cons, collectIdsF_nil, collectIds_mk,
        collectIdsF_nil]
      simp only [List.append_nil]
      exact IdsIn.consHeadI (idsIn_single (c + 1) (c + 2) (by omega)) (by omega)
    · rw [arityStrict_mk, arityStrictF_cons, arityStrictF_nil, arityStrict_mk,
        arityStrictF_nil]
      simp
  case isFalse h =>
    obtain ⟨v, c3, hv, hcv, hidsv, harv⟩ :=
      parseExpressionRecursive_spec
        ((((splitChar '=' s).get? 1).map fun v => removeFirst (jsTrim v) ";").getD "")
        (c + 2)
    rw [hv]
    refine ⟨_, _, rfl, by omega, ?_, ?_, rfl⟩
    · rw [collectIds_mk, collectIdsF_cons, collectIdsF_cons, collectIdsF_nil,
        collectIds_mk, collectIdsF_nil]
      simp only [List.append_nil, List.singleton_append, List.nil_append]
      exact IdsIn.consHeadI
        (IdsIn.consHeadI (hidsv.toIdsIn hcv) (by omega)) (by omega)
    · rw [arityStrict_mk, arityStrictF_cons, arityStrictF_cons, arityStrictF_nil,
        arityStrict_mk, arityStrictF_nil]
      simp [harv]

theorem parseExpressionStatement_spec (s : String) (c : Nat) :
    ∃ n c', parseExpressionStatement s c = some (n, c') ∧ c ≤ c' ∧
      IdsIn c c' (collectIds n) ∧ arityStrict n = true := by
  unfold parseExpressionStatement
  obtain ⟨v, c1, hv, hcv, hidsv, harv⟩ :=
    parseExpressionRecursive_spec (jsTrim (removeFirst s ";")) c
  exact ⟨v, c1, hv, hcv, hidsv.toIdsIn hcv, harv⟩

theorem forPart_spec (label src : String) (c : Nat) :
    ∃ r c', forPart label src c = some (r, c') ∧ c ≤ c' ∧
      IdsIn c c' (optIds r) ∧
      (∀ n, r = some n → arityStrict n = true ∧ n.type = .statement) := by
  unfold forPart
  split
  case isTrue h =>
    exact ⟨none, c, rfl, le_refl _, idsIn_nil _ _, by simp⟩
  case isFalse h =>
    simp only [createNode, setChildren]
    obtain ⟨v, c2, hv, hcv, hidsv, harv⟩ :=
      parseExpressionRecursive_spec src (c + 1)
    rw [hv]
    refine ⟨_, _, rfl, by omega, ?_, ?_⟩
    · simp only [optIds]
      rw [collectIds_mk, collectIdsF_cons, collectIdsF_nil]
      simp only [List.append_nil]
      exact IdsIn.consHeadI (hidsv.toIdsIn hcv) (by omega)
    · intro n hn
      injection hn with hn
      subst hn
      constructor
      · rw [arityStrict_mk, arityStrictF_cons, arityStrictF_nil]
        simp [harv]
      · rfl

theorem collectIdsF_toList (r : Option ASTNode) :
    collectIdsF r.toList = optIds r := by
  cases r with
  | none => simp [optIds, collectIdsF_nil]
  | some n => simp [optIds, collectIdsF_cons, collectIdsF_nil]

theorem arityStrictF_toList (r : Option ASTNode)
    (h : ∀ n, r = some n → arityStrict n = true) :
    arityStrictF r.toList = true := by
  cases r with
  | none => simp [arityStrictF_nil]
  | some n => simp [arityStrictF_cons, arityStrictF_nil, h n rfl]

theorem parseForStatement_spec (s : String) (c : Nat) :
    ∃ n c', parseForStatement s c = some (n, c') ∧ c ≤ c' ∧
      IdsIn c c' (collectIds n) ∧ arityStrict n = true ∧
      n.type = .for_statement := by
  unfold parseForStatement
  simp only [createNode, setChildren]
  split
  case isTrue h =>
    refine ⟨_, _, rfl, by omega, ?_, ?_, rfl⟩
    · rw [collectIds_mk, collectIdsF_nil]
      exact idsIn_single c (c + 1) (le_refl _)
    · rw [arityStrict_mk, arityStrictF_nil]
      simp
  case isFalse h =>
    split
    case isTrue hlen =>
      obtain ⟨r0, c2, h0, hc0, hids0, har0⟩ :=
        forPart_spec "Init"
          (((splitChar ';' (regexKwParen "for" s)).map jsTrim).headD "") (c + 1)
      rw [h0]
      dsimp only
      obtain ⟨r1, c3, h1, hc1, hids1, har1⟩ :=
        forPart_spec "Condition"
          ((((splitChar ';' (regexKwParen "for" s)).map jsTrim).get? 1).getD "") c2
      rw [h1]
      dsimp only
      obtain ⟨r2, c4, h2, hc2, hids2, har2⟩ :=
        forPart_spec "Update"
          ((((splitChar ';' (regexKwParen "for" s)).map jsTrim).get? 2).getD "") c3
      rw [h2]
      dsimp only
      refine ⟨_, _, rfl, by omega, ?_, ?_, rfl⟩
      · rw [collectIds_mk, collectIdsF_append, collectIdsF_append,
          collectIdsF_toList, collectIdsF_toList, collectIdsF_toList]
        refine IdsIn.consHeadI ?_ (by omega)
        exact (hids0.appendI hids1 (by omega) (by omega)).appendI hids2 (by omega) (by omega)
      · rw [arityStrict_mk, arityStrictF_append, arityStrictF_append,
          arityStrictF_toList _ (fun n hn => (har0 n hn).1),
          arityStrictF_toList _ (fun n hn => (har1 n hn).1),
          arityStrictF_toList _ (fun n hn => (har2 n hn).1)]
        simp
    case isFalse hlen =>
      refine ⟨_, _, rfl, by omega, ?_, ?_, rfl⟩
      · rw [collectIds_mk, collectIdsF_nil]
        exact idsIn_single c (c + 1) (le_refl _)
      · rw [arityStrict_mk, arityStrictF_nil]
        simp

theorem buildParams_spec (ps : List String) (c : Nat) :
    c ≤ (buildParams ps c).2 ∧
      IdsIn c (buildParams ps c).2 (collectIdsF (buildParams ps c).1) ∧
      arityStrictF (buildParams ps c).1 = true := by
  induction ps generalizing c with
  | nil =>
    rw [buildParams]
    exact ⟨le_refl _, by rw [collectIdsF_nil]; exact idsIn_nil _ _, arityStrictF_nil⟩
  | cons p ps ih =>
    rw [buildParams]
    split
    case isTrue h =>
      simp only [createNode, setChildren]
      obtain ⟨ihc, ihids, ihar⟩ := ih (c + 3)
      rcases hb : buildParams ps (c + 3) with ⟨rest, c4⟩
      rw [hb] at ihc ihids ihar
      simp only at ihc ihids ihar ⊢
      refine ⟨by omega, ?_, ?_⟩
      · rw [collectIdsF_cons, collectIds_mk, collectIdsF_cons, collectIdsF_cons,
          collectIdsF_nil, collectIds_mk, collectIds_mk, collectIdsF_nil]
        simp only [List.append_nil, List.singleton_append, List.cons_append,
          List.nil_append]
        exact IdsIn.consHeadI (IdsIn.consHeadI (IdsIn.consHeadI ihids (by omega))
          (by omega)) (by omega)
      · rw [arityStrictF_cons, arityStrict_mk, arityStrictF_cons,
          arityStrictF_cons, arityStrictF_nil, arityStrict_mk, arityStrict_mk,
          arityStrictF_nil]
        simp [ihar]
    case isFalse h =>
      exact ih c

theorem parseFunctionDeclaration_spec (s lang : String) (c : Nat) :
    c ≤ (parseFunctionDeclaration s lang c).2 ∧
      IdsIn c (parseFunctionDeclaration s lang c).2
        (collectIds (parseFunctionDeclaration s lang c).1) ∧
      arityStrict (parseFunctionDeclaration s lang c).1 = true ∧
      (parseFunctionDeclaration s lang c).1.type = .function_declaration := by
  unfold parseFunctionDeclaration
  simp only [createNode, setChildren]
  split
  case isTrue hpp =>
    split
    case isTrue hlen =>
      split
      case isTrue hrv =>
        rcases hb : buildParams (List.map jsTrim (splitChar ','
            ((Option.map (fun p => (splitChar ')' p).headD "")
              ((splitChar '(' s).get? 1)).getD ""))) (c + 1 + 1 + 1 + 1) with ⟨pn, c5⟩
        have hbs := buildParams_spec (List.map jsTrim (splitChar ','
            ((Option.map (fun p => (splitChar ')' p).headD "")
              ((splitChar '(' s).get? 1)).getD ""))) (c + 1 + 1 + 1 + 1)
        rw [hb] at hbs
        simp only at hbs
        obtain ⟨hc5, hids5, har5⟩ := hbs
        split
        case isTrue hpn =>
          refine ⟨by simp only; omega, ?_, ?_, rfl⟩
          · simp only [collectIds_mk, collectIdsF_append, collectIdsF_cons,
              collectIdsF_nil, List.append_nil, List.singleton_append,
              List.nil_append, List.cons_append]
            have h4 := @IdsIn.consHeadI (c + 1 + 1 + 1) c5 _ hids5 (by omega)
            have h3 := @IdsIn.consHeadI (c + 1 + 1) c5 _ h4 (by omega)
            have h2 := @IdsIn.consHeadI (c + 1) c5 _ h3 (by omega)
            exact @IdsIn.consHeadI c c5 _ h2 (by omega)
          · simp only [arityStrict_mk, arityStrictF_append, arityStrictF_cons,
              arityStrictF_nil, har5]
            simp
        case isFalse hpn =>
          refine ⟨by simp only; omega, ?_, ?_, rfl⟩
          · simp only [collectIds_mk, collectIdsF_append, collectIdsF_cons,
              collectIdsF_nil, List.append_nil, List.singleton_append,
              List.nil_append, List.cons_append]
            have h3 : IdsIn (c + 1 + 1) c5 [c + 1 + 1 + 1] :=
              (idsIn_single (c + 1 + 1) (c + 1 + 1 + 1) (le_refl _)).mono
                (le_refl _) (by omega)
            have h2 := @IdsIn.consHeadI (c + 1) c5 _ h3 (by omega)
            exact @IdsIn.consHeadI c c5 _ h2 (by omega)
          · simp only [arityStrict_mk, arityStrictF_append, arityStrictF_cons,
              arityStrictF_nil]
            simp
      case isFalse hrv =>
        rcases hb : buildParams (List.map jsTrim (splitChar ','
            ((Option.map (fun p => (splitChar ')' p).headD "")
              ((splitChar '(' s).get? 1)).getD ""))) (c + 1 + 1 + 1) with ⟨pn, c5⟩
        have hbs := buildParams_spec (List.map jsTrim (splitChar ','
            ((Option.map (fun p => (splitChar ')' p).headD "")
              ((splitChar '(' s).get? 1)).getD ""))) (c + 1 + 1 + 1)
        rw [hb] at hbs
        simp only at hbs
        obtain ⟨hc5, hids5, har5⟩ := hbs
        split
        case isTrue hpn =>
          refine ⟨by simp only; omega, ?_, ?_, rfl⟩
          · simp only [collectIds_mk, collectIdsF_append, collectIdsF_cons,
              collectIdsF_nil, List.append_nil, List.singleton_append,
              List.nil_append, List.cons_append]
            have h3 := @IdsIn.consHeadI (c + 1 + 1) c5 _ hids5 (by omega)
            have h2 := @IdsIn.consHeadI (c + 1) c5 _ h3 (by omega)
            exact @IdsIn.consHeadI c c5 _ h2 (by omega)
          · simp only [arityStrict_mk, arityStrictF_append, arityStrictF_cons,
              arityStrictF_nil, har5]
            simp
        case isFalse hpn =>
          refine ⟨by simp only; omega, ?_, ?_, rfl⟩
          · simp only [collectIds_mk, collectIdsF_append, collectIdsF_cons,
              collectIdsF_nil, List.append_nil, List.singleton_append,
              List.nil_append, List.cons_append]
            have h2 : IdsIn (c + 1) c5 [c + 1 + 1] :=
              (idsIn_single (c + 1) (c + 1 + 1) (le_refl _)).mono
                (le_refl _) (by omega)
            exact @IdsIn.consHeadI c c5 _ h2 (by omega)
          · simp only [arityStrict_mk, arityStrictF_append, arityStrictF_cons,
              arityStrictF_nil]
            simp
    case isFalse hlen =>
      try simp only [if_neg (show ¬("void" ≠ "void") by simp)]
      rcases hb : buildParams (List.map jsTrim (splitChar ','
          ((Option.map (fun p => (splitChar ')' p).headD "")
            ((splitChar '(' s).get? 1)).getD ""))) (c + 1 + 1 + 1) with ⟨pn, c5⟩
      have hbs := buildParams_spec (List.map jsTrim (splitChar ','
          ((Option.map (fun p => (splitChar ')' p).headD "")
            ((splitChar '(' s).get? 1)).getD ""))) (c + 1 + 1 + 1)
      rw [hb] at hbs
      simp only at hbs
      obtain ⟨hc5, hids5, har5⟩ := hbs
      split
      case isTrue hpn =>
        refine ⟨by simp only; omega, ?_, ?_, rfl⟩
        · simp only [collectIds_mk, collectIdsF_append, collectIdsF_cons,
            collectIdsF_nil, List.append_nil, List.singleton_append,
            List.nil_append, List.cons_append]
          have h3 := @IdsIn.consHeadI (c + 1 + 1) c5 _ hids5 (by omega)
          have h2 := @IdsIn.consHeadI (c + 1) c5 _ h3 (by omega)
          exact @IdsIn.consHeadI c c5 _ h2 (by omega)
        · simp only [arityStrict_mk, arityStrictF_append, arityStrictF_cons,
            arityStrictF_nil, har5]
          simp
      case isFalse hpn =>
        refine ⟨by simp only; omega, ?_, ?_, rfl⟩
        · simp only [collectIds_mk, collectIdsF_append, collectIdsF_cons,
            collectIdsF_nil, List.append_nil, List.singleton_append,
            List.nil_append, List.cons_append]
          have h2 : IdsIn (c + 1) c5 [c + 1 + 1] :=
            (idsIn_single (c + 1) (c + 1 + 1) (le_refl _)).mono
              (le_refl _) (by omega)
          exact @IdsIn.consHeadI c c5 _ h2 (by omega)
        · simp only [arityStrict_mk, arityStrictF_append, arityStrictF_cons,
            arityStrictF_nil]
          simp
  case isFalse hpp =>
    split
    case isTrue hlen =>
      split
      case isTrue hrv =>
        refine ⟨by simp only; omega, ?_, ?_, rfl⟩
        · simp only [collectIds_mk, collectIdsF_append, collectIdsF_cons,
            collectIdsF_nil, List.append_nil, List.singleton_append,
            List.nil_append, List.cons_append]
          have h3 : IdsIn (c + 1 + 1) (c + 1 + 1 + 1) [c + 1 + 1 + 1] :=
            idsIn_single (c + 1 + 1) (c + 1 + 1 + 1) (le_refl _)
          have h2 := @IdsIn.consHeadI (c + 1) (c + 1 + 1 + 1) _ h3 (by omega)
          exact @IdsIn.consHeadI c (c + 1 + 1 + 1) _ h2 (by omega)
        · simp only [arityStrict_mk, arityStrictF_append, arityStrictF_cons,
            arityStrictF_nil]
          simp
      case isFalse hrv =>
        refine ⟨by simp only; omega, ?_, ?_, rfl⟩
        · simp only [collectIds_mk, collectIdsF_append, collectIdsF_cons,
            collectIdsF_nil, List.append_nil, List.singleton_append,
            List.nil_append, List.cons_append]
          have h2 : IdsIn (c + 1) (c + 1 + 1) [c + 1 + 1] :=
            idsIn_single (c + 1) (c + 1 + 1) (le_refl _)
          exact @IdsIn.consHeadI c (c + 1 + 1) _ h2 (by omega)
        · simp only [arityStrict_mk, arityStrictF_append, arityStrictF_cons,
            arityStrictF_nil]
          simp
    case isFalse hlen =>
      try simp only [if_neg (show ¬("void" ≠ "void") by simp)]
      refine ⟨by omega, ?_, ?_, rfl⟩
      · simp only [collectIds_mk, collectIdsF_append, collectIdsF_cons,
          collectIdsF_nil, List.append_nil, List.singleton_append,
          List.nil_append, List.cons_append]
        have h2 : IdsIn (c + 1) (c + 1 + 1) [c + 1 + 1] :=
          idsIn_single (c + 1) (c + 1 + 1) (le_refl _)
        exact @IdsIn.consHeadI c (c + 1 + 1) _ h2 (by omega)
      · simp only [arityStrict_mk, arityStrictF_append, arityStrictF_cons,
          arityStrictF_nil]
        simp

theorem parseStatement_spec (s lang : String) (c : Nat) :
    ∃ n c', parseStatement s lang c = some (n, c') ∧ c ≤ c' ∧
      IdsIn c c' (collectIds n) ∧ arityStrict n = true := by
  unfold parseStatement
  split
  case isTrue h =>
    obtain ⟨n, c', hn, hc, hids, har, _⟩ := parseVariableDeclaration_spec s lang c
    exact ⟨n, c', hn, hc, hids, har⟩
  case isFalse h =>
    split
    case isTrue h2 =>
      obtain ⟨hc, hids, har, _⟩ := parseFunctionDeclaration_spec s lang c
      exact ⟨(parseFunctionDeclaration s lang c).1,
        (parseFunctionDeclaration s lang c).2, by rw [Prod.mk.eta], hc, hids, har⟩
    case isFalse h2 =>
      split
      case isTrue h3 =>
        obtain ⟨n, c', hn, hc, hids, har, _⟩ := parseIfStatement_spec s c
        exact ⟨n, c', hn, hc, hids, har⟩
      case isFalse h3 =>
        split
        case isTrue h4 =>
          obtain ⟨n, c', hn, hc, hids, har, _⟩ := parseWhileStatement_spec s c
          exact ⟨n, c', hn, hc, hids, har⟩
        case isFalse h4 =>
          split
          case isTrue h5 =>
            obtain ⟨n, c', hn, hc, hids, har, _⟩ := parseForStatement_spec s c
            exact ⟨n, c', hn, hc, hids, har⟩
          case isFalse h5 =>
            split
            case isTrue h6 =>
              obtain ⟨n, c', hn, hc, hids, har, _⟩ := parseReturnStatement_spec s c
              exact ⟨n, c', hn, hc, hids, har⟩
            case isFalse h6 =>
              split
              case isTrue h7 =>
                obtain ⟨n, c', hn, hc, hids, har, _⟩ := parseAssignment_spec s c
                exact ⟨n, c', hn, hc, hids, har⟩
              case isFalse h7 =>
                exact parseExpressionStatement_spec s c

theorem parseStatement_varDecl (s lang : String) (c : Nat)
    (h : isVariableDeclaration s lang = true) :
    ∃ n c', parseStatement s lang c = some (n, c') ∧
      n.type = .variable_declaration := by
  unfold parseStatement
  rw [if_pos h]
  obtain ⟨n, c', hn, _, _, _, hty⟩ := parseVariableDeclaration_spec s lang c
  exact ⟨n, c', hn, hty⟩

theorem parsedLineNodes_spec (lines : List String) (lang : String) (c : Nat) :
    ∃ l c', parsedLineNodes lines lang c = some (l, c') ∧ c ≤ c' ∧
      IdsIn c c' (collectIdsF l) ∧ arityStrictF l = true := by
  induction lines generalizing c with
  | nil =>
    rw [parsedLineNodes]
    exact ⟨[], c, rfl, le_refl _, by rw [collectIdsF_nil]; exact idsIn_nil _ _,
      arityStrictF_nil⟩
  | cons line rest ih =>
    rw [parsedLineNodes]
    split
    case isTrue h => exact ih c
    case isFalse h =>
      obtain ⟨n, c1, hst, hc1, hids1, har1⟩ := parseStatement_spec (jsTrim line) lang c
      rw [hst]
      dsimp only
      obtain ⟨l, c2, hpl, hc2, hids2, har2⟩ := ih c1
      rw [hpl]
      dsimp only
      refine ⟨n :: l, c2, rfl, by omega, ?_, ?_⟩
      · rw [collectIdsF_cons]
        exact hids1.appendI hids2 (by omega) (by omega)
      · rw [arityStrictF_cons]
        simp [har1, har2]

theorem isFuncNode_iff (n : ASTNode) :
    isFuncNode n = true ↔ n.type = .function_declaration := by
  simp [isFuncNode]

theorem isDeclNode_iff (n : ASTNode) :
    isDeclNode n = true ↔ n.type = .variable_declaration := by
  simp [isDeclNode]

theorem parseLinesAux_eq_filter (lines : List String) (lang : String) :
    ∀ fs ds ss c, parseLinesAux lines lang fs ds ss c =
      (parsedLineNodes lines lang c).map fun p =>
        (fs ++ p.1.filter isFuncNode, ds ++ p.1.filter isDeclNode,
          ss ++ p.1.filter isOtherNode, p.2) := by
  induction lines with
  | nil =>
    intro fs ds ss c
    rw [parseLinesAux, parsedLineNodes]
    simp
  | cons line rest ih =>
    intro fs ds ss c
    rw [parseLinesAux, parsedLineNodes]
    split
    case isTrue h => exact ih fs ds ss c
    case isFalse h =>
      cases hst : parseStatement (jsTrim line) lang c with
      | none => simp
      | some r =>
        obtain ⟨n, c1⟩ := r
        dsimp only
        split
        case isTrue hty =>
          have hF : isFuncNode n = true := (isFuncNode_iff n).mpr hty
          have hD : isDeclNode n = false := by
            simp [isDeclNode, hty]
          have hO : isOtherNode n = false := by
            simp [isOtherNode, hF]
          rw [ih]
          cases hpl : parsedLineNodes rest lang c1 with
          | none => simp
          | some p =>
            obtain ⟨l, c2⟩ := p
            simp [List.filter_cons, hF, hD, hO, List.append_assoc]
        case isFalse hty =>
          have hF : isFuncNode n = false := by
            rw [← Bool.not_eq_true]
            intro hc
            exact hty ((isFuncNode_iff n).mp hc)
          split
          case isTrue hty2 =>
            have hD : isDeclNode n = true := (isDeclNode_iff n).mpr hty2
            have hO : isOtherNode n = false := by
              simp [isOtherNode, hD]
            rw [ih]
            cases hpl : parsedLineNodes rest lang c1 with
            | none => simp
            | some p =>
              obtain ⟨l, c2⟩ := p
              simp [List.filter_cons, hF, hD, hO, List.append_assoc]
          case isFalse hty2 =>
            have hD : isDeclNode n = false := by
              rw [← Bool.not_eq_true]
              intro hc
              exact hty2 ((isDeclNode_iff n).mp hc)
            have hO : isOtherNode n = true := by
              simp [isOtherNode, hF, hD]
            rw [ih]
            cases hpl : parsedLineNodes rest lang c1 with
            | none => simp
            | some p =>
              obtain ⟨l, c2⟩ := p
              simp [List.filter_cons, hF, hD, hO, List.append_assoc]

theorem filter_partition_perm (l : List ASTNode) :
    (l.filter isFuncNode ++ l.filter isDeclNode ++ l.filter isOtherNode).Perm l := by
  induction l with
  | nil => simp
  | cons n l ih =>
    cases hF : isFuncNode n with
    | true =>
      have hD : isDeclNode n = false := by
        have := (isFuncNode_iff n).mp hF
        simp [isDeclNode, this]
      have hO : isOtherNode n = false := by
        simp [isOtherNode, hF]
      rw [List.filter_cons_of_pos hF, List.filter_cons_of_neg (by simp [hD]),
        List.filter_cons_of_neg (by simp [hO])]
      simp only [List.cons_append]
      exact ih.cons n
    | false =>
      cases hD : isDeclNode n with
      | true =>
        have hO : isOtherNode n = false := by
          simp [isOtherNode, hD]
        rw [List.filter_cons_of_neg (by simp [hF]), List.filter_cons_of_pos hD,
          List.filter_cons_of_neg (by simp [hO])]
        have h1 : l.filter isFuncNode ++ (n :: l.filter isDeclNode) ++ l.filter isOtherNode
            = l.filter isFuncNode ++ n :: (l.filter isDeclNode ++ l.filter isOtherNode) := by
          simp [List.append_assoc]
        rw [h1]
        refine List.Perm.trans List.perm_middle ?_
        refine List.Perm.cons n ?_
        have h2 : l.filter isFuncNode ++ (l.filter isDeclNode ++ l.filter isOtherNode)
            = l.filter isFuncNode ++ l.filter isDeclNode ++ l.filter isOtherNode := by
          simp [List.append_assoc]
        rw [h2]
        exact ih
      | false =>
        have hO : isOtherNode n = true := by
          simp [isOtherNode, hF, hD]
        rw [List.filter_cons_of_neg (by simp [hF]), List.filter_cons_of_neg (by simp [hD]),
          List.filter_cons_of_pos hO]
        have h1 : l.filter isFuncNode ++ l.filter isDeclNode ++ (n :: l.filter isOtherNode)
            = (l.filter isFuncNode ++ l.filter isDeclNode) ++ n :: l.filter isOtherNode := rfl
        rw [h1]
        refine List.Perm.trans List.perm_middle ?_
        exact List.Perm.cons n ih

theorem collectIdsF_perm {l1 l2 : List ASTNode} (h : l1.Perm l2) :
    (collectIdsF l1).Perm (collectIdsF l2) := by
  rw [collectIdsF_eq_flatMap, collectIdsF_eq_flatMap]
  exact h.flatMap_right collectIds

theorem arityStrictF_filter (p : ASTNode → Bool) (l : List ASTNode)
    (h : arityStrictF l = true) : arityStrictF (l.filter p) = true := by
  induction l with
  | nil => simpa using h
  | cons n l ih =>
    rw [arityStrictF_cons] at h
    obtain ⟨h1, h2⟩ := Bool.and_eq_true_iff.mp h
    rw [List.filter_cons]
    split
    · rw [arityStrictF_cons]
      simp [h1, ih h2]
    · exact ih h2

theorem perm_insert1 (A B : List Nat) (x : Nat) :
    (A ++ (x :: B)).Perm ((A ++ B) ++ [x]) :=
  List.Perm.trans List.perm_middle ((List.perm_append_singleton x (A ++ B)).symm)

theorem perm_insert2 (A B C : List Nat) (x y : Nat) :
    (A ++ (x :: B) ++ (y :: C)).Perm ((A ++ B ++ C) ++ [x, y]) := by
  have h1 : A ++ (x :: B) ++ (y :: C) = A ++ x :: (B ++ y :: C) := by
    simp [List.append_assoc]
  rw [h1]
  refine List.Perm.trans List.perm_middle ?_
  have h2 : A ++ (B ++ y :: C) = (A ++ B) ++ y :: C := by
    simp [List.append_assoc]
  rw [h2]
  refine List.Perm.trans (List.Perm.cons x List.perm_middle) ?_
  exact @List.perm_append_comm _ [x, y] (A ++ B ++ C)

theorem idsIn_pair (a b : Nat) (h1 : a + 1 ≤ b) (h2 : a + 2 ≤ b) :
    IdsIn a b [a + 1, a + 2] := by
  refine ⟨by simp, ?_⟩
  intro i hi
  simp only [List.mem_cons, List.not_mem_nil, or_false] at hi
  rcases hi with rfl | rfl <;> omega

theorem parseCode_line_spec (input lang : String) (h : lang ≠ "expression") :
    ∃ parsed c2 t,
      parsedLineNodes (codeLines input) lang 1 = some (parsed, c2) ∧
      parseCode input lang = some t ∧
      t.type = .program ∧ t.value = jsToUpper lang ++ " Program" ∧ t.id = 1 ∧
      (∃ dsPart ssPart,
        t.children = parsed.filter isFuncNode ++ dsPart ++ ssPart ∧
        ((parsed.filter isDeclNode = [] ∧ dsPart = []) ∨
          (parsed.filter isDeclNode ≠ [] ∧ ∃ g, dsPart = [g] ∧
            g.type = .declarations ∧ g.value = "Declarations" ∧
            g.children = parsed.filter isDeclNode)) ∧
        ((parsed.filter isOtherNode = [] ∧ ssPart = []) ∨
          (parsed.filter isOtherNode ≠ [] ∧ ∃ g, ssPart = [g] ∧
            g.type = .statements ∧ g.value = "Statements" ∧
            g.children = parsed.filter isOtherNode))) ∧
      (∃ b, IdsIn 0 b (collectIds t)) ∧ 1 ∈ collectIds t ∧
      arityStrict t = true := by
  obtain ⟨parsed, c2, hpl, hc2, hids, har⟩ :=
    parsedLineNodes_spec (codeLines input) lang 1
  have hFper := collectIdsF_perm (filter_partition_perm parsed)
  have harF := arityStrictF_filter isFuncNode parsed har
  have harD := arityStrictF_filter isDeclNode parsed har
  have harO := arityStrictF_filter isOtherNode parsed har
  by_cases hd : parsed.filter isDeclNode = []
  · by_cases ho : parsed.filter isOtherNode = []
    · -- no groups
      have hcode : parseCode input lang = some (ASTNode.mk 1 .program
          (jsToUpper lang ++ " Program") .keyword
          (parsed.filter isFuncNode ++ [] ++ [])) := by
        unfold parseCode
        rw [if_neg h]
        simp only [createNode, setChildren]
        rw [parseLinesAux_eq_filter, hpl]
        rw [Option.map_some']
        dsimp only
        simp only [List.nil_append, hd, ho, List.length_nil]
        norm_num
      refine ⟨parsed, c2, _, hpl, hcode, rfl, rfl, rfl,
        ⟨[], [], rfl, Or.inl ⟨hd, rfl⟩, Or.inl ⟨ho, rfl⟩⟩, ?_, ?_, ?_⟩
      · rw [collectIds_mk]
        have hper2 : (collectIdsF (parsed.filter isFuncNode ++ [] ++ [])).Perm
            (collectIdsF parsed) := by
          rw [hd, ho] at hFper
          simpa using hFper
        have hin : IdsIn 1 c2 (collectIdsF (parsed.filter isFuncNode ++ [] ++ [])) :=
          IdsIn.perm hper2.symm hids
        exact ⟨c2, @IdsIn.consHeadI 0 c2 _ hin (by omega)⟩
      · rw [collectIds_mk]
        exact List.mem_cons_self _ _
      · rw [arityStrict_mk, arityStrictF_append, arityStrictF_append,
          arityStrictF_nil, harF]
        simp
    · -- statements group only
      have hcode : parseCode input lang = some (ASTNode.mk 1 .program
          (jsToUpper lang ++ " Program") .keyword
          (parsed.filter isFuncNode ++ [] ++
            [ASTNode.mk (c2 + 1) .statements "Statements" .keyword
              (parsed.filter isOtherNode)])) := by
        unfold parseCode
        rw [if_neg h]
        simp only [createNode, setChildren]
        rw [parseLinesAux_eq_filter, hpl]
        rw [Option.map_some']
        dsimp only
        simp only [List.nil_append, hd, List.length_nil]
        rw [if_neg (by norm_num), if_pos (List.length_pos.mpr ho)]
      refine ⟨parsed, c2, _, hpl, hcode, rfl, rfl, rfl,
        ⟨[], [ASTNode.mk (c2 + 1) .statements "Statements" .keyword
          (parsed.filter isOtherNode)], rfl, Or.inl ⟨hd, rfl⟩,
          Or.inr ⟨ho, _, rfl, rfl, rfl, rfl⟩⟩, ?_, ?_, ?_⟩
      · rw [collectIds_mk]
        have hshape : collectIdsF (parsed.filter isFuncNode ++ [] ++
            [ASTNode.mk (c2 + 1) .statements "Statements" .keyword
              (parsed.filter isOtherNode)]) =
            collectIdsF (parsed.filter isFuncNode) ++
              ((c2 + 1) :: collectIdsF (parsed.filter isOtherNode)) := by
          rw [collectIdsF_append, collectIdsF_append, collectIdsF_nil,
            collectIdsF_cons, collectIdsF_nil, collectIds_mk]
          simp
        rw [hshape]
        have hper2 : (collectIdsF (parsed.filter isFuncNode) ++
            ((c2 + 1) :: collectIdsF (parsed.filter isOtherNode))).Perm
            (collectIdsF parsed ++ [c2 + 1]) := by
          refine (perm_insert1 _ _ _).trans ?_
          refine List.Perm.append_right [c2 + 1] ?_
          have hcopy := hFper
          rw [hd, List.append_nil, collectIdsF_append] at hcopy
          exact hcopy
        have hin : IdsIn 1 (c2 + 1) (collectIdsF parsed ++ [c2 + 1]) :=
          hids.appendI (idsIn_single c2 (c2 + 1) (le_refl _)) (by omega) (by omega)
        have hin2 := IdsIn.perm hper2.symm hin
        exact ⟨c2 + 1, @IdsIn.consHeadI 0 (c2 + 1) _ hin2 (by omega)⟩
      · rw [collectIds_mk]
        exact List.mem_cons_self _ _
      · rw [arityStrict_mk, arityStrictF_append, arityStrictF_append,
          arityStrictF_nil, arityStrictF_cons, arityStrictF_nil, arityStrict_mk,
          harF, harO]
        simp
  · by_cases ho : parsed.filter isOtherNode = []
    · -- declarations group only
      have hcode : parseCode input lang = some (ASTNode.mk 1 .program
          (jsToUpper lang ++ " Program") .keyword
          (parsed.filter isFuncNode ++
            [ASTNode.mk (c2 + 1) .declarations "Declarations" .keyword
              (parsed.filter isDeclNode)] ++ [])) := by
        unfold parseCode
        rw [if_neg h]
        simp only [createNode, setChildren]
        rw [parseLinesAux_eq_filter, hpl]
        rw [Option.map_some']
        dsimp only
        simp only [List.nil_append, ho, List.length_nil]
        rw [if_pos (List.length_pos.mpr hd), if_neg (by norm_num)]
      refine ⟨parsed, c2, _, hpl, hcode, rfl, rfl, rfl,
        ⟨[ASTNode.mk (c2 + 1) .declarations "Declarations" .keyword
          (parsed.filter isDeclNode)], [], rfl,
          Or.inr ⟨hd, _, rfl, rfl, rfl, rfl⟩, Or.inl ⟨ho, rfl⟩⟩, ?_, ?_, ?_⟩
      · rw [collectIds_mk]
        have hshape : collectIdsF (parsed.filter isFuncNode ++
            [ASTNode.mk (c2 + 1) .declarations "Declarations" .keyword
              (parsed.filter isDeclNode)] ++ []) =
            collectIdsF (parsed.filter isFuncNode) ++
              ((c2 + 1) :: collectIdsF (parsed.filter isDeclNode)) := by
          rw [collectIdsF_append, collectIdsF_append, collectIdsF_nil,
            collectIdsF_cons, collectIdsF_nil, collectIds_mk]
          simp
        rw [hshape]
        have hper2 : (collectIdsF (parsed.filter isFuncNode) ++
            ((c2 + 1) :: collectIdsF (parsed.filter isDeclNode))).Perm
            (collectIdsF parsed ++ [c2 + 1]) := by
          refine (perm_insert1 _ _ _).trans ?_
          refine List.Perm.append_right [c2 + 1] ?_
          have hcopy := hFper
          rw [ho, List.append_nil, collectIdsF_append] at hcopy
          exact hcopy
        have hin : IdsIn 1 (c2 + 1) (collectIdsF parsed ++ [c2 + 1]) :=
          hids.appendI (idsIn_single c2 (c2 + 1) (le_refl _)) (by omega) (by omega)
        have hin2 := IdsIn.perm hper2.symm hin
        exact ⟨c2 + 1, @IdsIn.consHeadI 0 (c2 + 1) _ hin2 (by omega)⟩
      · rw [collectIds_mk]
        exact List.mem_cons_self _ _
      · rw [arityStrict_mk, arityStrictF_append, arityStrictF_append,
          arityStrictF_nil, arityStrictF_cons, arityStrictF_nil, arityStrict_mk,
          harF, harD]
        simp
    · -- both groups
      have hcode : parseCode input lang = some (ASTNode.mk 1 .program
          (jsToUpper lang ++ " Program") .keyword
          (parsed.filter isFuncNode ++
            [ASTNode.mk (c2 + 1) .declarations "Declarations" .keyword
              (parsed.filter isDeclNode)] ++
            [ASTNode.mk (c2 + 1 + 1) .statements "Statements" .keyword
              (parsed.filter isOtherNode)])) := by
        unfold parseCode
        rw [if_neg h]
        simp only [createNode, setChildren]
        rw [parseLinesAux_eq_filter, hpl]
        rw [Option.map_some']
        dsimp only
        simp only [List.nil_append]
        rw [if_pos (List.length_pos.mpr hd), if_pos (List.length_pos.mpr ho)]
      refine ⟨parsed, c2, _, hpl, hcode, rfl, rfl, rfl,
        ⟨[ASTNode.mk (c2 + 1) .declarations "Declarations" .keyword
          (parsed.filter isDeclNode)],
          [ASTNode.mk (c2 + 1 + 1) .statements "Statements" .keyword
            (parsed.filter isOtherNode)], rfl,
          Or.inr ⟨hd, _, rfl, rfl, rfl, rfl⟩,
          Or.inr ⟨ho, _, rfl, rfl, rfl, rfl⟩⟩, ?_, ?_, ?_⟩
      · rw [collectIds_mk]
        have hshape : collectIdsF (parsed.filter isFuncNode ++
            [ASTNode.mk (c2 + 1) .declarations "Declarations" .keyword
              (parsed.filter isDeclNode)] ++
            [ASTNode.mk (c2 + 1 + 1) .statements "Statements" .keyword
              (parsed.filter isOtherNode)]) =
            collectIdsF (parsed.filter isFuncNode) ++
              ((c2 + 1) :: collectIdsF (parsed.filter isDeclNode)) ++
              ((c2 + 1 + 1) :: collectIdsF (parsed.filter isOtherNode)) := by
          rw [collectIdsF_append, collectIdsF_append, collectIdsF_cons,
            collectIdsF_nil, collectIdsF_cons, collectIdsF_nil, collectIds_mk,
            collectIds_mk]
          simp
        rw [hshape]
        have hper2 : (collectIdsF (parsed.filter isFuncNode) ++
            ((c2 + 1) :: collectIdsF (parsed.filter isDeclNode)) ++
            ((c2 + 1 + 1) :: collectIdsF (parsed.filter isOtherNode))).Perm
            (collectIdsF parsed ++ [c2 + 1, c2 + 1 + 1]) := by
          refine (perm_insert2 _ _ _ _ _).trans ?_
          refine List.Perm.append_right [c2 + 1, c2 + 1 + 1] ?_
          have : collectIdsF (parsed.filter isFuncNode) ++
              collectIdsF (parsed.filter isDeclNode) ++
              collectIdsF (parsed.filter isOtherNode) =
              collectIdsF (parsed.filter isFuncNode ++ parsed.filter isDeclNode ++
                parsed.filter isOtherNode) := by
            rw [collectIdsF_append, collectIdsF_append]
          rw [this]
          exact hFper
        have hin : IdsIn 1 (c2 + 2) (collectIdsF parsed ++ [c2 + 1, c2 + 1 + 1]) := by
          have hp : IdsIn c2 (c2 + 2) [c2 + 1, c2 + 2] :=
            idsIn_pair c2 (c2 + 2) (by omega) (by omega)
          exact hids.appendI hp (by omega) (by omega)
        have hin2 := IdsIn.perm hper2.symm hin
        exact ⟨c2 + 2, @IdsIn.consHeadI 0 (c2 + 2) _ hin2 (by omega)⟩
      · rw [collectIds_mk]
        exact List.mem_cons_self _ _
      · rw [arityStrict_mk, arityStrictF_append, arityStrictF_append,
          arityStrictF_cons, arityStrictF_nil, arityStrictF_cons,
          arityStrictF_nil, arityStrict_mk, arityStrict_mk, harF, harD, harO]
        simp


theorem tokInv : ∀ f, TokInv f := by
  intro f
  induction f with
  | zero =>
    refine ⟨?_, ?_, ?_, ?_, ?_, ?_⟩
    · intro ts c r ts' c' h
      rw [parsePrimaryT.eq_def] at h
      simp at h
    · intro ts c r ts' c' h
      rw [parseMulDivT.eq_def] at h
      simp at h
    · intro ts c r ts' c' h
      rw [parseAddSubT.eq_def] at h
      simp at h
    · intro left ts c a r ts' c' ha hids har h
      rw [mulLoopT.eq_def] at h
      simp at h
    · intro left ts c a r ts' c' ha hids har h
      rw [addLoopT.eq_def] at h
      simp at h
    · intro ts acc c a args ts' c' ha hids harr h
      rw [parseArgsT.eq_def] at h
      simp at h
  | succ f ih =>
    obtain ⟨ihP, ihM, ihA, ihML, ihAL, ihArgs⟩ := ih
    refine ⟨?_, ?_, ?_, ?_, ?_, ?_⟩
    · -- TLevelInv parsePrimaryT
      intro ts c r ts' c' h
      rw [parsePrimaryT.eq_def] at h
      simp only [createNode] at h
      split at h
      case h_1 =>
        simp only [Option.some.injEq, Prod.mk.injEq] at h
        obtain ⟨rfl, rfl, rfl⟩ := h
        refine ⟨le_refl _, le_refl _, ?_, rfl⟩
        simp only [optIds]
        exact exprIds_nil c
      case h_2 t rest =>
        split at h
        case isTrue hpar =>
          cases has : parseAddSubT f rest c with
          | none => rw [has] at h; simp at h
          | some pr =>
            obtain ⟨e, ts1, c1⟩ := pr
            rw [has] at h
            simp only [Option.some.injEq, Prod.mk.injEq] at h
            obtain ⟨rfl, rfl, rfl⟩ := h
            obtain ⟨hle1, hc1, hids1, har1⟩ := ihA rest c e ts1 c1 has
            refine ⟨?_, hc1, hids1, har1⟩
            have htl : ts1.tail.length ≤ ts1.length := by
              rw [List.length_tail]; omega
            calc ts1.tail.length ≤ ts1.length := htl
              _ ≤ rest.length := hle1
              _ ≤ (t :: rest).length := by simp only [List.length_cons]; omega
        case isFalse hpar =>
          split at h
          case isTrue hnum =>
            simp only [Option.some.injEq, Prod.mk.injEq] at h
            obtain ⟨rfl, rfl, rfl⟩ := h
            refine ⟨by simp only [List.length_cons]; omega, Nat.le_succ _, ?_, ?_⟩
            · simp only [optIds]
              rw [collectIds_mk, collectIdsF_nil]
              exact exprIds_single c
            · simp only [arityWeakO]
              rw [arityWeak_mk, arityWeakF_nil]
              simp
          case isFalse hnum =>
            split at h
            case isTrue hid =>
              split at h
              case isTrue hcall =>
                cases hargs : parseArgsT f rest.tail [] c with
                | none => rw [hargs] at h; simp at h
                | some pr =>
                  obtain ⟨args, ts1, c1⟩ := pr
                  rw [hargs] at h
                  simp only [Option.some.injEq, Prod.mk.injEq] at h
                  obtain ⟨rfl, rfl, rfl⟩ := h
                  have hids0 : ExprIds c c (collectIdsF ([] : List ASTNode)) := by
                    rw [collectIdsF_nil]
                    exact exprIds_nil c
                  obtain ⟨hle1, hc1, hids1, harr1⟩ :=
                    ihArgs rest.tail [] c c args ts1 c1 (le_refl _) hids0
                      arityWeakF_nil hargs
                  have htl : rest.tail.length ≤ rest.length := by
                    rw [List.length_tail]; omega
                  refine ⟨?_, by omega, ?_, ?_⟩
                  · calc ts1.length ≤ rest.tail.length := hle1
                      _ ≤ rest.length := htl
                      _ ≤ (t :: rest).length := by simp only [List.length_cons]; omega
                  · simp only [optIds]
                    rw [collectIds_mk]
                    exact hids1.consAfter hc1
                  · simp only [arityWeakO]
                    rw [arityWeak_mk]
                    simp [harr1]
              case isFalse hcall =>
                simp only [Option.some.injEq, Prod.mk.injEq] at h
                obtain ⟨rfl, rfl, rfl⟩ := h
                refine ⟨by simp only [List.length_cons]; omega, Nat.le_succ _, ?_, ?_⟩
                · simp only [optIds]
                  rw [collectIds_mk, collectIdsF_nil]
                  exact exprIds_single c
                · simp only [arityWeakO]
                  rw [arityWeak_mk, arityWeakF_nil]
                  simp
            case isFalse hid =>
              simp only [Option.some.injEq, Prod.mk.injEq] at h
              obtain ⟨rfl, rfl, rfl⟩ := h
              refine ⟨le_refl _, le_refl _, ?_, rfl⟩
              simp only [optIds]
              exact exprIds_nil c
    · -- TLevelInv parseMulDivT
      intro ts c r ts' c' h
      rw [parseMulDivT.eq_def] at h
      simp only [] at h
      cases hp : parsePrimaryT f ts c with
      | none => rw [hp] at h; simp at h
      | some pr =>
        obtain ⟨left, ts1, c1⟩ := pr
        rw [hp] at h
        simp only [] at h
        obtain ⟨hle1, hc1, hids1, har1⟩ := ihP ts c left ts1 c1 hp
        obtain ⟨hle2, hc2, hids2, har2⟩ :=
          ihML left ts1 c1 c r ts' c' hc1 hids1 har1 h
        exact ⟨le_trans hle2 hle1, le_trans hc1 hc2, hids2, har2⟩
    · -- TLevelInv parseAddSubT
      intro ts c r ts' c' h
      rw [parseAddSubT.eq_def] at h
      simp only [] at h
      cases hp : parseMulDivT f ts c with
      | none => rw [hp] at h; simp at h
      | some pr =>
        obtain ⟨left, ts1, c1⟩ := pr
        rw [hp] at h
        simp only [] at h
        obtain ⟨hle1, hc1, hids1, har1⟩ := ihM ts c left ts1 c1 hp
        obtain ⟨hle2, hc2, hids2, har2⟩ :=
          ihAL left ts1 c1 c r ts' c' hc1 hids1 har1 h
        exact ⟨le_trans hle2 hle1, le_trans hc1 hc2, hids2, har2⟩
    · -- TLoopInv mulLoopT
      intro left ts c a r ts' c' ha hids har h
      rw [mulLoopT.eq_def] at h
      simp only [createNode] at h
      split at h
      case h_2 =>
        simp only [Option.some.injEq, Prod.mk.injEq] at h
        obtain ⟨rfl, rfl, rfl⟩ := h
        exact ⟨le_refl _, le_refl _, hids, har⟩
      case h_1 t rest =>
        split at h
        case isTrue hop =>
          cases hp : parsePrimaryT f rest c with
          | none => rw [hp] at h; simp at h
          | some pr =>
            obtain ⟨right, ts1, c1⟩ := pr
            rw [hp] at h
            simp only [] at h
            obtain ⟨hle1, hc1, hids1, har1⟩ := ihP rest c right ts1 c1 hp
            cases right with
            | none =>
              simp only [] at h
              have hc1e : c1 = c := by
                simp only [optIds] at hids1
                exact hids1.nil_eq hc1
              rw [hc1e] at h
              obtain ⟨hle2, hc2, hids2, har2⟩ :=
                ihML left ts1 c a r ts' c' ha hids har h
              refine ⟨?_, hc2, hids2, har2⟩
              calc ts'.length ≤ ts1.length := hle2
                _ ≤ rest.length := hle1
                _ ≤ (t :: rest).length := by simp only [List.length_cons]; omega
            | some rn =>
              simp only [] at h
              cases left with
              | none =>
                simp only [] at h
                have hce : c = a := by
                  simp only [optIds] at hids
                  exact hids.nil_eq ha
                rw [hce] at hids1 hc1
                have hids2 : ExprIds a (c1 + 1)
                    (optIds (some (ASTNode.mk (c1 + 1) .binary_op t .operator [rn]))) := by
                  simp only [optIds] at hids1 ⊢
                  rw [collectIds_mk, collectIdsF_cons, collectIdsF_nil,
                    List.append_nil]
                  exact hids1.consAfter hc1
                have har2 : arityWeakO
                    (some (ASTNode.mk (c1 + 1) .binary_op t .operator [rn])) = true := by
                  simp only [arityWeakO] at har1 ⊢
                  rw [arityWeak_mk, arityWeakF_cons, arityWeakF_nil]
                  simp [har1]
                obtain ⟨hle2, hc2, hids2', har2'⟩ :=
                  ihML _ ts1 (c1 + 1) a r ts' c'
                    (le_trans hc1 (Nat.le_succ _)) hids2 har2 h
                refine ⟨?_, by omega, hids2', har2'⟩
                calc ts'.length ≤ ts1.length := hle2
                  _ ≤ rest.length := hle1
                  _ ≤ (t :: rest).length := by simp only [List.length_cons]; omega
              | some ln =>
                simp only [] at h
                have hids2 : ExprIds a (c1 + 1)
                    (optIds (some (ASTNode.mk (c1 + 1) .binary_op t .operator [ln, rn]))) := by
                  simp only [optIds] at hids hids1 ⊢
                  rw [collectIds_mk, collectIdsF_cons, collectIdsF_cons,
                    collectIdsF_nil, List.append_nil]
                  exact (hids.append hids1 ha hc1).consAfter (le_trans ha hc1)
                have har2 : arityWeakO
                    (some (ASTNode.mk (c1 + 1) .binary_op t .operator [ln, rn])) = true := by
                  simp only [arityWeakO] at har har1 ⊢
                  rw [arityWeak_mk, arityWeakF_cons, arityWeakF_cons, arityWeakF_nil]
                  simp [har, har1]
                obtain ⟨hle2, hc2, hids2', har2'⟩ :=
                  ihML _ ts1 (c1 + 1) a r ts' c'
                    (le_trans ha (le_trans hc1 (Nat.le_succ _))) hids2 har2 h
                refine ⟨?_, by omega, hids2', har2'⟩
                calc ts'.length ≤ ts1.length := hle2
                  _ ≤ rest.length := hle1
                  _ ≤ (t :: rest).length := by simp only [List.length_cons]; omega
        case isFalse hop =>
          simp only [Option.some.injEq, Prod.mk.injEq] at h
          obtain ⟨rfl, rfl, rfl⟩ := h
          exact ⟨le_refl _, le_refl _, hids, har⟩
    · -- TLoopInv addLoopT
      intro left ts c a r ts' c' ha hids har h
      rw [addLoopT.eq_def] at h
      simp only [createNode] at h
      split at h
      case h_2 =>
        simp only [Option.some.injEq, Prod.mk.injEq] at h
        obtain ⟨rfl, rfl, rfl⟩ := h
        exact ⟨le_refl _, le_refl _, hids, har⟩
      case h_1 t rest =>
        split at h
        case isTrue hop =>
          cases hp : parseMulDivT f rest c with
          | none => rw [hp] at h; simp at h
          | some pr =>
            obtain ⟨right, ts1, c1⟩ := pr
            rw [hp] at h
            simp only [] at h
            obtain ⟨hle1, hc1, hids1, har1⟩ := ihM rest c right ts1 c1 hp
            cases right with
            | none =>
              simp only [] at h
              have hc1e : c1 = c := by
                simp only [optIds] at hids1
                exact hids1.nil_eq hc1
              rw [hc1e] at h
              obtain ⟨hle2, hc2, hids2, har2⟩ :=
                ihAL left ts1 c a r ts' c' ha hids har h
              refine ⟨?_, hc2, hids2, har2⟩
              calc ts'.length ≤ ts1.length := hle2
                _ ≤ rest.length := hle1
                _ ≤ (t :: rest).length := by simp only [List.length_cons]; omega
            | some rn =>
              simp only [] at h
              cases left with
              | none =>
                simp only [] at h
                have hce : c = a := by
                  simp only [optIds] at hids
                  exact hids.nil_eq ha
                rw [hce] at hids1 hc1
                have hids2 : ExprIds a (c1 + 1)
                    (optIds (some (ASTNode.mk (c1 + 1) .binary_op t .operator [rn]))) := by
                  simp only [optIds] at hids1 ⊢
                  rw [collectIds_mk, collectIdsF_cons, collectIdsF_nil,
                    List.append_nil]
                  exact hids1.consAfter hc1
                have har2 : arityWeakO
                    (some (ASTNode.mk (c1 + 1) .binary_op t .operator [rn])) = true := by
                  simp only [arityWeakO] at har1 ⊢
                  rw [arityWeak_mk, arityWeakF_cons, arityWeakF_nil]
                  simp [har1]
                obtain ⟨hle2, hc2, hids2', har2'⟩ :=
                  ihAL _ ts1 (c1 + 1) a r ts' c'
                    (le_trans hc1 (Nat.le_succ _)) hids2 har2 h
                refine ⟨?_, by omega, hids2', har2'⟩
                calc ts'.length ≤ ts1.length := hle2
                  _ ≤ rest.length := hle1
                  _ ≤ (t :: rest).length := by simp only [List.length_cons]; omega
              | some ln =>
                simp only [] at h
                have hids2 : ExprIds a (c1 + 1)
                    (optIds (some (ASTNode.mk (c1 + 1) .binary_op t .operator [ln, rn]))) := by
                  simp only [optIds] at hids hids1 ⊢
                  rw [collectIds_mk, collectIdsF_cons, collectIdsF_cons,
                    collectIdsF_nil, List.append_nil]
                  exact (hids.append hids1 ha hc1).consAfter (le_trans ha hc1)
                have har2 : arityWeakO
                    (some (ASTNode.mk (c1 + 1) .binary_op t .operator [ln, rn])) = true := by
                  simp only [arityWeakO] at har har1 ⊢
                  rw [arityWeak_mk, arityWeakF_cons, arityWeakF_cons, arityWeakF_nil]
                  simp [har, har1]
                obtain ⟨hle2, hc2, hids2', har2'⟩ :=
                  ihAL _ ts1 (c1 + 1) a r ts' c'
                    (le_trans ha (le_trans hc1 (Nat.le_succ _))) hids2 har2 h
                refine ⟨?_, by omega, hids2', har2'⟩
                calc ts'.length ≤ ts1.length := hle2
                  _ ≤ rest.length := hle1
                  _ ≤ (t :: rest).length := by simp only [List.length_cons]; omega
        case isFalse hop =>
          simp only [Option.some.injEq, Prod.mk.injEq] at h
          obtain ⟨rfl, rfl, rfl⟩ := h
          exact ⟨le_refl _, le_refl _, hids, har⟩
    · -- ArgsInvT
      intro ts acc c a args ts' c' ha hids harr h
      rw [parseArgsT.eq_def] at h
      simp only [] at h
      split at h
      case h_1 =>
        simp only [Option.some.injEq, Prod.mk.injEq] at h
        obtain ⟨rfl, rfl, rfl⟩ := h
        exact ⟨le_refl _, le_refl _, hids, harr⟩
      case h_2 t rest =>
        split at h
        case isTrue hrp =>
          simp only [Option.some.injEq, Prod.mk.injEq] at h
          obtain ⟨rfl, rfl, rfl⟩ := h
          exact ⟨by simp only [List.length_cons]; omega, le_refl _, hids, harr⟩
        case isFalse hrp =>
          cases hadd : parseAddSubT f (t :: rest) c with
          | none => rw [hadd] at h; simp at h
          | some pr =>
            obtain ⟨arg, ts1, c1⟩ := pr
            rw [hadd] at h
            simp only [] at h
            obtain ⟨hle1, hc1, hids1, har1⟩ := ihA (t :: rest) c arg ts1 c1 hadd
            cases arg with
            | none =>
              simp only [] at h
              have hc1e : c1 = c := by
                simp only [optIds] at hids1
                exact hids1.nil_eq hc1
              rw [hc1e] at h
              by_cases hcomma : ts1.head? = some ","
              · rw [if_pos hcomma] at h
                obtain ⟨hle2, hc2, hids2, harr2⟩ :=
                  ihArgs ts1.tail acc c a args ts' c' ha hids harr h
                refine ⟨?_, hc2, hids2, harr2⟩
                have htl : ts1.tail.length ≤ ts1.length := by
                  rw [List.length_tail]; omega
                calc ts'.length ≤ ts1.tail.length := hle2
                  _ ≤ ts1.length := htl
                  _ ≤ (t :: rest).length := hle1
              · rw [if_neg hcomma] at h
                obtain ⟨hle2, hc2, hids2, harr2⟩ :=
                  ihArgs ts1 acc c a args ts' c' ha hids harr h
                exact ⟨le_trans hle2 hle1, hc2, hids2, harr2⟩
            | some an =>
              simp only [] at h
              have hidsacc : ExprIds a c1 (collectIdsF (acc ++ [an])) := by
                simp only [optIds] at hids1
                rw [collectIdsF_append, collectIdsF_cons, collectIdsF_nil,
                  List.append_nil]
                exact hids.append hids1 ha hc1
              have harracc : arityWeakF (acc ++ [an]) = true := by
                simp only [arityWeakO] at har1
                rw [arityWeakF_append, arityWeakF_cons, arityWeakF_nil]
                simp [harr, har1]
              by_cases hcomma : ts1.head? = some ","
              · rw [if_pos hcomma] at h
                obtain ⟨hle2, hc2, hids2, harr2⟩ :=
                  ihArgs ts1.tail (acc ++ [an]) c1 a args ts' c'
                    (le_trans ha hc1) hidsacc harracc h
                refine ⟨?_, le_trans hc1 hc2, hids2, harr2⟩
                have htl : ts1.tail.length ≤ ts1.length := by
                  rw [List.length_tail]; omega
                calc ts'.length ≤ ts1.tail.length := hle2
                  _ ≤ ts1.length := htl
                  _ ≤ (t :: rest).length := hle1
              · rw [if_neg hcomma] at h
                obtain ⟨hle2, hc2, hids2, harr2⟩ :=
                  ihArgs ts1 (acc ++ [an]) c1 a args ts' c'
                    (le_trans ha hc1) hidsacc harracc h
                exact ⟨le_trans hle2 hle1, le_trans hc1 hc2, hids2, harr2⟩

theorem addSubT_inv (f : Nat) : TLevelInv parseAddSubT f := (tokInv f).2.2.1

theorem collectIds_ne_nil (n : ASTNode) : collectIds n ≠ [] := by
  cases n with
  | mk i t v tt cs =>
    rw [collectIds_mk]
    simp

theorem parseExpressionC_spec (input : String) (n : ASTNode) (c' : Nat)
    (h : parseExpressionC input = some (n, c')) :
    1 ≤ c' ∧ ExprIds 0 c' (collectIds n) ∧ arityWeak n = true := by
  unfold parseExpressionC at h
  cases hp : parseExpressionTokens (tokenizeExpression input) 0 with
  | none => rw [hp] at h; simp at h
  | some pr =>
    obtain ⟨r, ts1, c⟩ := pr
    rw [hp] at h
    rw [parseExpressionTokens] at hp
    obtain ⟨hle, hc, hids, har⟩ :=
      addSubT_inv (tokFuel (tokenizeExpression input))
        (tokenizeExpression input) 0 r ts1 c hp
    cases r with
    | some m =>
      simp only [Option.some.injEq, Prod.mk.injEq] at h
      obtain ⟨rfl, rfl⟩ := h
      simp only [optIds] at hids
      simp only [arityWeakO] at har
      refine ⟨?_, hids, har⟩
      have hlen := List.Perm.length_eq hids
      simp only [List.length_range'] at hlen
      have hne : collectIds m ≠ [] := collectIds_ne_nil m
      have : 0 < (collectIds m).length := List.length_pos.mpr hne
      omega
    | none =>
      simp only [createNode, Option.some.injEq, Prod.mk.injEq] at h
      obtain ⟨rfl, rfl⟩ := h
      simp only [optIds] at hids
      have hc0 : c = 0 := hids.nil_eq (by omega)
      subst hc0
      refine ⟨le_refl _, ?_, ?_⟩
      · rw [collectIds_mk, collectIdsF_nil]
        exact exprIds_single 0
      · rw [arityWeak_mk, arityWeakF_nil]
        simp

theorem parseExpression_spec (input : String) (n : ASTNode)
    (h : parseExpression input = some n) :
    ∃ c', parseExpressionC input = some (n, c') ∧ 1 ≤ c' ∧
      ExprIds 0 c' (collectIds n) ∧ arityWeak n = true := by
  rw [parseExpression] at h
  cases hp : parseExpressionC input with
  | none => rw [hp] at h; simp at h
  | some pr =>
    obtain ⟨m, c'⟩ := pr
    rw [hp] at h
    simp only [Option.map_some'] at h
    simp only [Option.some.injEq] at h
    subst h
    obtain ⟨hc, hids, har⟩ := parseExpressionC_spec input m c' hp
    exact ⟨c', rfl, hc, hids, har⟩

theorem ExprIds.nodup {a b : Nat} {l : List Nat} (h : ExprIds a b l) :
    l.Nodup := by
  unfold ExprIds at h
  refine h.nodup_iff.mpr ?_
  exact List.nodup_range' _ _

theorem ExprIds.one_mem {c' : Nat} {l : List Nat} (h : ExprIds 0 c' l)
    (hc : 1 ≤ c') : 1 ∈ l := by
  unfold ExprIds at h
  refine h.mem_iff.mpr ?_
  rw [List.mem_range'_1]
  omega

theorem ExprIds.one_le {c' : Nat} {l : List Nat} (h : ExprIds 0 c' l) :
    ∀ i ∈ l, 1 ≤ i := by
  intro i hi
  unfold ExprIds at h
  have := h.mem_iff.mp hi
  rw [List.mem_range'_1] at this
  omega

theorem parseCode_expr_spec (input : String) (t : ASTNode)
    (h : parseCode input "expression" = some t) :
    t.type = .program ∧ (∃ b, IdsIn 0 b (collectIds t)) ∧
      1 ∈ collectIds t ∧ arityWeak t = true := by
  rw [parseCode, if_pos rfl] at h
  cases hp : parseExpressionC input with
  | none => rw [hp] at h; simp at h
  | some pr =>
    obtain ⟨n, c'⟩ := pr
    rw [hp] at h
    simp only [createNode, setChildren, Option.some.injEq] at h
    subst h
    obtain ⟨hc', hids, har⟩ := parseExpressionC_spec input n c' hp
    refine ⟨rfl, ?_, ?_, ?_⟩
    · refine ⟨c' + 2, ?_⟩
      have hshape : collectIds (ASTNode.mk (c' + 1) .program "Program" .keyword
          [ASTNode.mk (c' + 2) .statements "Expressions" .keyword [n]]) =
          [c' + 1, c' + 2] ++ collectIds n := by
        rw [collectIds_mk, collectIdsF_cons, collectIdsF_nil, collectIds_mk,
          collectIdsF_cons, collectIdsF_nil]
        simp
      rw [hshape]
      have hper : ([c' + 1, c' + 2] ++ collectIds n).Perm
          (collectIds n ++ [c' + 1, c' + 2]) :=
        List.perm_append_comm
      refine IdsIn.perm hper.symm ?_
      refine (hids.toIdsIn (by omega)).appendI (idsIn_pair c' (c' + 2) (by omega) (by omega))
        (by omega) (by omega)
    · rw [collectIds_mk, collectIdsF_cons, collectIdsF_nil, collectIds_mk,
        collectIdsF_cons, collectIdsF_nil]
      simp only [List.append_nil]
      have h1 : 1 ∈ collectIds n := hids.one_mem hc'
      simp [h1]
    · rw [arityWeak_mk, arityWeakF_cons, arityWeakF_nil, arityWeak_mk,
        arityWeakF_cons, arityWeakF_nil]
      simp [har]

/-! ## Divergence of the simple expression parser on unspaced argument lists

`tokenizeExpression` does not split on `,`, so `f(1,2)` tokenizes to
`["f", "(", "1,2", ")"]`.  The token `1,2` is neither numeric nor an
identifier, so `parsePrimary` returns `null` without consuming it; the
argument loop then repeats on an unchanged token list forever.  In the fuel
embedding this shows as `none` for every fuel. -/

theorem primaryT_stuck (t : String) (rest : List String)
    (hpar : ¬t = "(") (hnum : isNumericTok t = false)
    (hid : isIdentTok t = false) :
    ∀ f c, parsePrimaryT (f + 1) (t :: rest) c = some (none, t :: rest, c) := by
  intro f c
  rw [parsePrimaryT.eq_def]
  simp [hpar, hnum, hid]

theorem addSubT_stuck (t : String) (rest : List String)
    (hpar : ¬t = "(") (hnum : isNumericTok t = false)
    (hid : isIdentTok t = false) (hmul : ¬t = "*") (hdiv : ¬t = "/")
    (hadd : ¬t = "+") (hsub : ¬t = "-") :
    ∀ f c, parseAddSubT f (t :: rest) c = none ∨
      parseAddSubT f (t :: rest) c = some (none, t :: rest, c) := by
  intro f c
  match f with
  | 0 =>
    left
    rw [parseAddSubT.eq_def]
  | 1 =>
    left
    have h0 : parseMulDivT 0 (t :: rest) c = none := by
      rw [parseMulDivT.eq_def]
    rw [parseAddSubT.eq_def]
    simp only []
    rw [h0]
  | 2 =>
    left
    have h0 : parsePrimaryT 0 (t :: rest) c = none := by
      rw [parsePrimaryT.eq_def]
    have h1 : parseMulDivT 1 (t :: rest) c = none := by
      rw [parseMulDivT.eq_def]
      simp only []
      rw [h0]
    rw [parseAddSubT.eq_def]
    simp only []
    rw [h1]
  | g + 3 =>
    have hprim := primaryT_stuck t rest hpar hnum hid g c
    have hml : mulLoopT (g + 1) none (t :: rest) c =
        some (none, t :: rest, c) := by
      rw [mulLoopT.eq_def]
      simp [hmul, hdiv]
    have hmd : parseMulDivT (g + 2) (t :: rest) c =
        some (none, t :: rest, c) := by
      rw [parseMulDivT.eq_def]
      simp only []
      rw [hprim]
      exact hml
    have hal : addLoopT (g + 2) none (t :: rest) c =
        some (none, t :: rest, c) := by
      rw [addLoopT.eq_def]
      simp [hadd, hsub]
    right
    rw [parseAddSubT.eq_def]
    simp only []
    rw [hmd]
    exact hal

theorem argsT_stuck (t : String) (rest : List String)
    (hpar : ¬t = "(") (hnum : isNumericTok t = false)
    (hid : isIdentTok t = false) (hmul : ¬t = "*") (hdiv : ¬t = "/")
    (hadd : ¬t = "+") (hsub : ¬t = "-") (hrp : ¬t = ")") (hcm : ¬t = ",") :
    ∀ f acc c, parseArgsT f (t :: rest) acc c = none := by
  intro f
  induction f with
  | zero =>
    intro acc c
    rw [parseArgsT.eq_def]
  | succ g ih =>
    intro acc c
    rw [parseArgsT.eq_def]
    simp only []
    rw [if_neg hrp]
    rcases addSubT_stuck t rest hpar hnum hid hmul hdiv hadd hsub g c with
      hn | hs
    · rw [hn]
    · rw [hs]
      simp only []
      rw [if_neg (by simp [hcm])]
      exact ih acc c

theorem primaryT_call_stuck (name t : String) (rest : List String)
    (hn1 : ¬name = "(") (hn2 : isNumericTok name = false)
    (hn3 : isIdentTok name = true)
    (hpar : ¬t = "(") (hnum : isNumericTok t = false)
    (hid : isIdentTok t = false) (hmul : ¬t = "*") (hdiv : ¬t = "/")
    (hadd : ¬t = "+") (hsub : ¬t = "-") (hrp : ¬t = ")") (hcm : ¬t = ",") :
    ∀ f c, parsePrimaryT f (name :: "(" :: t :: rest) c = none := by
  intro f c
  match f with
  | 0 => rw [parsePrimaryT.eq_def]
  | g + 1 =>
    have ha := argsT_stuck t rest hpar hnum hid hmul hdiv hadd hsub hrp hcm
      g [] c
    rw [parsePrimaryT.eq_def]
    simp [hn1, hn2, hn3, ha]

theorem addSubT_call_stuck (name t : String) (rest : List String)
    (hn1 : ¬name = "(") (hn2 : isNumericTok name = false)
    (hn3 : isIdentTok name = true)
    (hpar : ¬t = "(") (hnum : isNumericTok t = false)
    (hid : isIdentTok t = false) (hmul : ¬t = "*") (hdiv : ¬t = "/")
    (hadd : ¬t = "+") (hsub : ¬t = "-") (hrp : ¬t = ")") (hcm : ¬t = ",") :
    ∀ f c, parseAddSubT f (name :: "(" :: t :: rest) c = none := by
  intro f c
  match f with
  | 0 => rw [parseAddSubT.eq_def]
  | g + 1 =>
    have hp := primaryT_call_stuck name t rest hn1 hn2 hn3 hpar hnum hid hmul
      hdiv hadd hsub hrp hcm
    have hmd : parseMulDivT g (name :: "(" :: t :: rest) c = none := by
      match g with
      | 0 => rw [parseMulDivT.eq_def]
      | g1 + 1 =>
        rw [parseMulDivT.eq_def]
        simp only []
        rw [hp g1 c]
    rw [parseAddSubT.eq_def]
    simp only []
    rw [hmd]

/-! ## Dialect independence of the line-oriented pipeline -/

theorem parseStatement_lang (s l l' : String) (c : Nat) :
    parseStatement s l c = parseStatement s l' c := rfl

theorem parsedLineNodes_lang (lines : List String) (l l' : String) :
    ∀ c, parsedLineNodes lines l c = parsedLineNodes lines l' c := by
  induction lines with
  | nil =>
    intro c
    rw [parsedLineNodes, parsedLineNodes]
  | cons line rest ih =>
    intro c
    rw [parsedLineNodes, parsedLineNodes]
    by_cases hskip : skipLine (jsTrim line) = true
    · rw [if_pos hskip, if_pos hskip]
      exact ih c
    · rw [if_neg hskip, if_neg hskip]
      rw [parseStatement_lang (jsTrim line) l' l c]
      cases hst : parseStatement (jsTrim line) l c with
      | none => rfl
      | some pr =>
        obtain ⟨n, c1⟩ := pr
        dsimp only
        rw [ih c1]

theorem parseCode_lang (input d1 d2 : String) (h1 : ¬d1 = "expression")
    (h2 : ¬d2 = "expression") :
    parseCode input d2 = (parseCode input d1).map
      (fun t => setValue t (jsToUpper d2 ++ " Program")) := by
  rw [parseCode, parseCode]
  rw [if_neg h2, if_neg h1]
  simp only [createNode, setChildren]
  rw [parseLinesAux_eq_filter, parseLinesAux_eq_filter]
  rw [parsedLineNodes_lang (codeLines input) d2 d1 1]
  cases hpl : parsedLineNodes (codeLines input) d1 1 with
  | none => rfl
  | some pr =>
    obtain ⟨parsed, c2⟩ := pr
    rw [Option.map_some', Option.map_some']
    dsimp only
    simp only [Option.map_some', setValue]

/-! ## The degenerate-leaf fallbacks -/

theorem primaryR_empty (f c : Nat) :
    parsePrimaryR (f + 1) [] c =
      some (ASTNode.mk (c + 1) .identifier "" .identifier [], [], c + 1) := by
  rw [parsePrimaryR.eq_def]
  simp [createNode]

theorem parseExpression_fallback (input : String) (ts : List String) (c : Nat)
    (h : parseExpressionTokens (tokenizeExpression input) 0 = some (none, ts, c)) :
    parseExpression input =
      some (ASTNode.mk (c + 1) .expression input .constant []) := by
  rw [parseExpression]
  unfold parseExpressionC
  rw [h]
  simp [createNode]

/-! ## The claims -/

unseal parseAddSubT parseMulDivT parsePrimaryT mulLoopT addLoopT parseArgsT in
/-- C1: Refuted (code bug).  The entry points do not return a node on every
input: on `f(1,2)` the tokenizer keeps `1,2` as a single token (it never
splits on `,`), that token is neither numeric nor an identifier, so the
argument loop of the simple expression parser consumes nothing and recurses
forever.  In the fuel embedding no fuel suffices, and both top-level entry
points yield no node in the expression dialect. -/
theorem c1_entry_points_diverge :
    (∀ f c, parseAddSubT f (tokenizeExpression "f(1,2)") c = none) ∧
    parseExpression "f(1,2)" = none ∧
    parseCode "f(1,2)" "expression" = none := by
  refine ⟨?_, rfl, rfl⟩
  intro f c
  have htok : tokenizeExpression "f(1,2)" = ["f", "(", "1,2", ")"] := rfl
  rw [htok]
  exact addSubT_call_stuck "f" "1,2" [")"] (by decide) (by decide) (by decide)
    (by decide) (by decide) (by decide) (by decide) (by decide) (by decide)
    (by decide) (by decide) (by decide) f c

unseal parseAddSubT parseMulDivT parsePrimaryT mulLoopT addLoopT parseArgsT in
/-- C2: Refuted (code bug).  In the expression dialect the input `g(3,4)`
makes the argument loop recurse forever on the unsplit token `3,4`, so
`parseCode` returns no tree at all, let alone a `program`-rooted one. -/
theorem c2_no_program_root :
    (∀ f c, parseAddSubT f (tokenizeExpression "g(3,4)") c = none) ∧
    parseCode "g(3,4)" "expression" = none := by
  refine ⟨?_, rfl⟩
  intro f c
  have htok : tokenizeExpression "g(3,4)" = ["g", "(", "3,4", ")"] := rfl
  rw [htok]
  exact addSubT_call_stuck "g" "3,4" [")"] (by decide) (by decide) (by decide)
    (by decide) (by decide) (by decide) (by decide) (by decide) (by decide)
    (by decide) (by decide) (by decide) f c

unseal parseAddSubT parseMulDivT parsePrimaryT mulLoopT addLoopT parseArgsT in
/-- C3: Confirmed.  `"2+3*4"` parses to a root `binary_op "+"` whose right
child is `binary_op "*"` over the constants 3 and 4, and `"(1+2)*3"` parses
to a root `binary_op "*"` whose left child is `binary_op "+"` over 1 and 2
and whose right child is the constant 3. -/
theorem c3_operator_precedence :
    parseExpression "2+3*4" =
      some (ASTNode.mk 5 .binary_op "+" .operator
        [ASTNode.mk 1 .constant "2" .constant [],
         ASTNode.mk 4 .binary_op "*" .operator
           [ASTNode.mk 2 .constant "3" .constant [],
            ASTNode.mk 3 .constant "4" .constant []]]) ∧
    parseExpression "(1+2)*3" =
      some (ASTNode.mk 5 .binary_op "*" .operator
        [ASTNode.mk 3 .binary_op "+" .operator
           [ASTNode.mk 1 .constant "1" .constant [],
            ASTNode.mk 2 .constant "2" .constant []],
         ASTNode.mk 4 .constant "3" .constant []]) :=
  ⟨rfl, rfl⟩

unseal splitWSAux parseLogicalOrR orLoopR parseLogicalAndR andLoopR parseEqualityR eqLoopR parseComparisonR compLoopR parseAddSubR addLoopR parseMulDivR mulLoopR parseUnaryR parsePrimaryR parseArgsR in
/-- C4: Confirmed.  `"int x = 5;"` is classified as a variable declaration
whose children are the keyword `int`, the identifier `x`, and an assignment
node whose second child is the constant 5; and in general any statement
whose first whitespace-delimited word is one of the type keywords
(`isVariableDeclaration`) parses to a `variable_declaration` node. -/
theorem c4_variable_declaration_classification :
    parseStatement "int x = 5;" "c" 0 =
      some (ASTNode.mk 1 .variable_declaration "int x" .keyword
        [ASTNode.mk 2 .keyword "int" .keyword [],
         ASTNode.mk 3 .identifier "x" .identifier [],
         ASTNode.mk 4 .assignment "=" .operator
           [ASTNode.mk 5 .identifier "x" .identifier [],
            ASTNode.mk 6 .constant "5" .constant []]], 6) ∧
    (∀ s lang c, isVariableDeclaration s lang = true →
       ∃ n c', parseStatement s lang c = some (n, c') ∧
         n.type = .variable_declaration) :=
  ⟨rfl, fun s lang c h => parseStatement_varDecl s lang c h⟩

/-- C5: Confirmed.  For every line-oriented dialect the program root's
children are: all function-declaration nodes first (in line order, being a
filter of the classified line nodes), then a `declarations` group wrapping
the variable declarations exactly when that bucket is non-empty, then a
`statements` group wrapping the remaining statements exactly when that
bucket is non-empty; no empty group node is ever emitted. -/
theorem c5_program_children_layout (input lang : String)
    (h : lang ≠ "expression") :
    ∃ parsed c2 t,
      parsedLineNodes (codeLines input) lang 1 = some (parsed, c2) ∧
      parseCode input lang = some t ∧
      ∃ dsPart ssPart,
        t.children = parsed.filter isFuncNode ++ dsPart ++ ssPart ∧
        ((parsed.filter isDeclNode = [] ∧ dsPart = []) ∨
          (parsed.filter isDeclNode ≠ [] ∧ ∃ g, dsPart = [g] ∧
            g.type = .declarations ∧ g.value = "Declarations" ∧
            g.children = parsed.filter isDeclNode)) ∧
        ((parsed.filter isOtherNode = [] ∧ ssPart = []) ∨
          (parsed.filter isOtherNode ≠ [] ∧ ∃ g, ssPart = [g] ∧
            g.type = .statements ∧ g.value = "Statements" ∧
            g.children = parsed.filter isOtherNode)) := by
  obtain ⟨parsed, c2, t, hpl, hcode, _, _, _, hstruct, _, _, _⟩ :=
    parseCode_line_spec input lang h
  exact ⟨parsed, c2, t, hpl, hcode, hstruct⟩

/-- C5 witness: the layout at the concrete input `"int x = 5;"` in the `c`
dialect. -/
theorem c5_layout_witness :
    "c" ≠ "expression" ∧
    ∃ parsed c2 t,
      parsedLineNodes (codeLines "int x = 5;") "c" 1 = some (parsed, c2) ∧
      parseCode "int x = 5;" "c" = some t ∧
      ∃ dsPart ssPart,
        t.children = parsed.filter isFuncNode ++ dsPart ++ ssPart ∧
        ((parsed.filter isDeclNode = [] ∧ dsPart = []) ∨
          (parsed.filter isDeclNode ≠ [] ∧ ∃ g, dsPart = [g] ∧
            g.type = .declarations ∧ g.value = "Declarations" ∧
            g.children = parsed.filter isDeclNode)) ∧
        ((parsed.filter isOtherNode = [] ∧ ssPart = []) ∨
          (parsed.filter isOtherNode ≠ [] ∧ ∃ g, ssPart = [g] ∧
            g.type = .statements ∧ g.value = "Statements" ∧
            g.children = parsed.filter isOtherNode)) :=
  ⟨by decide, c5_program_children_layout "int x = 5;" "c" (by decide)⟩

/-- C6: Confirmed.  In every tree a top-level entry point returns, the node
ids are pairwise distinct, the id 1 occurs (numbering restarts from 1 at
each top-level invocation: the embedding threads the counter from its reset
value explicitly), and every id is at least 1. -/
theorem c6_ids_unique_from_one :
    (∀ input lang t, parseCode input lang = some t →
       (collectIds t).Nodup ∧ 1 ∈ collectIds t ∧ ∀ i ∈ collectIds t, 1 ≤ i) ∧
    (∀ input n, parseExpression input = some n →
       (collectIds n).Nodup ∧ 1 ∈ collectIds n ∧ ∀ i ∈ collectIds n, 1 ≤ i) := by
  constructor
  · intro input lang t h
    by_cases hl : lang = "expression"
    · subst hl
      obtain ⟨_, ⟨b, hin⟩, hmem, _⟩ := parseCode_expr_spec input t h
      exact ⟨hin.1, hmem, fun i hi => by have := (hin.2 i hi).1; omega⟩
    · obtain ⟨parsed, c2, t', hpl, hcode, _, _, _, _, ⟨b, hin⟩, hmem, _⟩ :=
        parseCode_line_spec input lang hl
      rw [h] at hcode
      simp only [Option.some.injEq] at hcode
      subst hcode
      exact ⟨hin.1, hmem, fun i hi => by have := (hin.2 i hi).1; omega⟩
  · intro input n h
    obtain ⟨c', _, hc1, hids, _⟩ := parseExpression_spec input n h
    exact ⟨hids.nodup, hids.one_mem hc1, hids.one_le⟩

unseal parseAddSubT parseMulDivT parsePrimaryT mulLoopT addLoopT parseArgsT in
/-- C7: Refuted (code bug).  `tokenizeExpression` does not split on commas:
`f(1,2,3)` tokenizes to `["f", "(", "1,2,3", ")"]`, the argument loop makes
no progress on the token `1,2,3`, and the parse never returns, so no call
node with three constant children is ever produced. -/
theorem c7_unspaced_args_never_parse :
    tokenizeExpression "f(1,2,3)" = ["f", "(", "1,2,3", ")"] ∧
    (∀ f c, parseAddSubT f (tokenizeExpression "f(1,2,3)") c = none) ∧
    parseExpression "f(1,2,3)" = none := by
  refine ⟨rfl, ?_, rfl⟩
  intro f c
  have htok : tokenizeExpression "f(1,2,3)" = ["f", "(", "1,2,3", ")"] := rfl
  rw [htok]
  exact addSubT_call_stuck "f" "1,2,3" [")"] (by decide) (by decide) (by decide)
    (by decide) (by decide) (by decide) (by decide) (by decide) (by decide)
    (by decide) (by decide) (by decide) f c

/-- C8: Confirmed.  On an exhausted token stream the rich expression
parser's primary level yields a placeholder empty-identifier leaf rather
than an absent result, and whenever the simple expression grammar produces
no node the top-level `parseExpression` wraps the raw input text in a
constant-tagged leaf, so the caller receives a node in both cases. -/
theorem c8_degenerate_fallbacks :
    (∀ f c, parsePrimaryR (f + 1) [] c =
       some (ASTNode.mk (c + 1) .identifier "" .identifier [], [], c + 1)) ∧
    (∀ input ts c,
       parseExpressionTokens (tokenizeExpression input) 0 = some (none, ts, c) →
       parseExpression input =
         some (ASTNode.mk (c + 1) .expression input .constant [])) :=
  ⟨primaryR_empty, parseExpression_fallback⟩

/-- C9: Corrected.  As stated the claim is false: the simple expression
parser builds a `binary_op` node with a single child when the left operand
is absent (counterexample `"+3"`).  What holds: trees returned by
`parseCode` in the line-oriented dialects satisfy the strict arity
discipline (binary ops have exactly 2 children, unary ops exactly 1, via
the rich parser), while trees returned in the expression dialect and by
`parseExpression` satisfy the weak discipline (binary ops have 1 or 2
children, unary ops exactly 1). -/
theorem c9_arity_invariant :
    (∀ input lang t, lang ≠ "expression" → parseCode input lang = some t →
       arityStrict t = true) ∧
    (∀ input t, parseCode input "expression" = some t →
       arityWeak t = true) ∧
    (∀ input n, parseExpression input = some n → arityWeak n = true) := by
  refine ⟨?_, ?_, ?_⟩
  · intro input lang t hl h
    obtain ⟨parsed, c2, t', hpl, hcode, _, _, _, _, _, _, har⟩ :=
      parseCode_line_spec input lang hl
    rw [h] at hcode
    simp only [Option.some.injEq] at hcode
    subst hcode
    exact har
  · intro input t h
    exact (parseCode_expr_spec input t h).2.2.2
  · intro input n h
    obtain ⟨c', _, _, _, har⟩ := parseExpression_spec input n h
    exact har

unseal parseAddSubT parseMulDivT parsePrimaryT mulLoopT addLoopT parseArgsT in
/-- C9 counterexample: `parseExpression "+3"` returns a `binary_op` node
with exactly one child, violating the claimed exactly-2 arity. -/
theorem c9_single_child_binary_op :
    parseExpression "+3" =
      some (ASTNode.mk 2 .binary_op "+" .operator
        [ASTNode.mk 1 .constant "3" .constant []]) ∧
    arityStrict (ASTNode.mk 2 .binary_op "+" .operator
        [ASTNode.mk 1 .constant "3" .constant []]) = false :=
  ⟨rfl, rfl⟩

/-- C10: Confirmed.  The line-oriented pipeline never consults the dialect:
for any two non-expression dialects the produced trees agree up to the root
program node's label, which is the upper-cased dialect name. -/
theorem c10_line_dialects_agree (input d1 d2 : String)
    (h1 : d1 ≠ "expression") (h2 : d2 ≠ "expression") :
    parseCode input d2 = (parseCode input d1).map
      (fun t => setValue t (jsToUpper d2 ++ " Program")) :=
  parseCode_lang input d1 d2 h1 h2

/-- C10 witness: the `c` and `java` dialects agree on `"x = 1;"` up to the
root label. -/
theorem c10_dialects_witness :
    "c" ≠ "expression" ∧ "java" ≠ "expression" ∧
    parseCode "x = 1;" "java" = (parseCode "x = 1;" "c").map
      (fun t => setValue t (jsToUpper "java" ++ " Program")) :=
  ⟨by decide, by decide,
    c10_line_dialects_agree "x = 1;" "c" "java" (by decide) (by decide)⟩
